import Mathlib

/-!
Verification development for the SFA-API product/price-list/image sync service.

The source is a Node.js service that (a) groups flat SQL rows into nested
Salesforce upsert documents (`dataMapper.js`), and (b) delivers those documents
over HTTP with a concurrency pool, a linear-back-off retry wrapper, and
partial/total failure summarising (`sfService`-style module with `withRetry`,
`runWithConcurrency`, `verifySFResponse`, `upsertProducts`), driven by a
paginated sync controller that maintains an in-memory watermark
(`syncController.js`).

The definitions below are a shallow embedding of that code: JavaScript objects
become structures, nullable fields become `Option`, JS `Map`s become
insertion-ordered association lists, the async delivery pipeline becomes
explicit outcome-valued functions, and the single-threaded event loop of the
concurrency pool becomes a deterministic simulation parametrised by a
scheduling oracle that picks which in-flight worker resolves next.
-/

set_option maxHeartbeats 1000000

/-! ## Insertion-ordered association lists (model of JS `Map`) -/

/-- First-match lookup in an insertion-ordered association list. -/
def assocFind {κ β : Type} [DecidableEq κ] (m : List (κ × β)) (k : κ) : Option β :=
  match m with
  | [] => none
  | (k', v) :: rest => if k' = k then some v else assocFind rest k

/-- The JS pattern `if (!map.has(k)) map.set(k, init); f(map.get(k))` where `f`
mutates the stored value in place: update the first entry with key `k` by `f`,
or append `(k, f init)` when `k` is absent. -/
def assocUpd {κ β : Type} [DecidableEq κ] (k : κ) (init : β) (f : β → β) :
    List (κ × β) → List (κ × β)
  | [] => [(k, f init)]
  | (k', v) :: rest =>
    if k' = k then (k', f v) :: rest else (k', v) :: assocUpd k init f rest

theorem assocFind_assocUpd {κ β : Type} [DecidableEq κ] (k c : κ) (init : β)
    (f : β → β) (m : List (κ × β)) :
    assocFind (assocUpd k init f m) c =
      if k = c then some (f ((assocFind m k).getD init)) else assocFind m c := by
  induction m with
  | nil =>
    by_cases h : k = c <;> simp [assocUpd, assocFind, h]
  | cons e rest ih =>
    obtain ⟨k', v⟩ := e
    by_cases hk : k' = k
    · subst hk
      by_cases hc : k' = c <;> simp [assocUpd, assocFind, hc]
    · by_cases hc : k' = c
      · subst hc
        have hkc : ¬ k = k' := fun h => hk h.symm
        simp [assocUpd, assocFind, hk, hkc]
      · simp [assocUpd, assocFind, hk, hc, ih]

theorem assocUpd_forall {κ β : Type} [DecidableEq κ] (P : κ → β → Prop)
    (k : κ) (init : β) (f : β → β) (m : List (κ × β))
    (hm : ∀ e ∈ m, P e.1 e.2) (hinit : P k (f init))
    (hf : ∀ v, P k v → P k (f v)) :
    ∀ e ∈ assocUpd k init f m, P e.1 e.2 := by
  induction m with
  | nil => simpa [assocUpd] using hinit
  | cons e rest ih =>
    obtain ⟨k', v⟩ := e
    by_cases hk : k' = k
    · subst hk
      have hrw : assocUpd k' init f ((k', v) :: rest) = (k', f v) :: rest := by
        simp [assocUpd]
      intro x hx
      rw [hrw, List.mem_cons] at hx
      rcases hx with hx | hx
      · subst hx
        exact hf v (hm _ (List.mem_cons_self _ _))
      · exact hm _ (List.mem_cons_of_mem _ hx)
    · have hrw : assocUpd k init f ((k', v) :: rest) =
          (k', v) :: assocUpd k init f rest := by
        simp [assocUpd, hk]
      intro x hx
      rw [hrw, List.mem_cons] at hx
      rcases hx with hx | hx
      · subst hx
        exact hm _ (List.mem_cons_self _ _)
      · exact ih (fun e he => hm e (List.mem_cons_of_mem _ he)) _ hx

/-- Fold a row sequence through `assocUpd`; `assocFind` of the result restricts
to the rows whose key matches. -/
theorem assocFind_foldl {κ β ρ : Type} [DecidableEq κ] (key : ρ → κ)
    (init : ρ → β) (upd : ρ → β → β) (rows : List ρ) (m0 : List (κ × β)) (c : κ) :
    assocFind (rows.foldl (fun m row => assocUpd (key row) (init row) (upd row) m) m0) c =
      (rows.filter (fun r => key r = c)).foldl
        (fun acc r => some (upd r (acc.getD (init r)))) (assocFind m0 c) := by
  induction rows generalizing m0 with
  | nil => simp
  | cons r rest ih =>
    rw [List.foldl_cons, ih, assocFind_assocUpd, List.filter_cons]
    by_cases h : key r = c
    · simp [h]
    · simp [h]

/-! ## JSON values and Salesforce response verification (`verifySFResponse`) -/

/-- JSON bodies as parsed by axios. -/
inductive Json where
  | null : Json
  | bool (b : Bool) : Json
  | num (n : Int) : Json
  | str (s : String) : Json
  | arr (elems : List Json) : Json
  | obj (fields : List (String × Json)) : Json

/-- First-match field lookup on an object body; any non-object has no fields
(JS property access yields `undefined`). -/
def jsonField (j : Json) (k : String) : Option Json :=
  match j with
  | .obj fields => assocFind fields k
  | _ => none

mutual
/-- `JSON.stringify`, at the precision the body check needs. -/
def jsonStringify : Json → String
  | .null => "null"
  | .bool true => "true"
  | .bool false => "false"
  | .num n => toString n
  | .str s => "\"" ++ s ++ "\""
  | .arr elems => "[" ++ jsonStringifyList elems ++ "]"
  | .obj fields => "\x7b" ++ jsonStringifyFields fields ++ "\x7d"

def jsonStringifyList : List Json → String
  | [] => ""
  | [x] => jsonStringify x
  | x :: xs => jsonStringify x ++ "," ++ jsonStringifyList xs

def jsonStringifyFields : List (String × Json) → String
  | [] => ""
  | [(k, v)] => "\"" ++ k ++ "\":" ++ jsonStringify v
  | (k, v) :: fs => "\"" ++ k ++ "\":" ++ jsonStringify v ++ "," ++ jsonStringifyFields fs
end

/-- JS truthiness of a JSON value (`if (data)`). -/
def jsTruthy : Json → Bool
  | .null => false
  | .bool b => b
  | .num n => n != 0
  | .str s => s != ""
  | .arr _ => true
  | .obj _ => true

/-- Whether character list `s` starts with the pattern `pat`. -/
def charsStartWith : List Char → List Char → Bool
  | _, [] => true
  | [], _ :: _ => false
  | c :: cs, p :: ps => c = p && charsStartWith cs ps

/-- Whether the pattern occurs anywhere in `s` (JS `String.prototype.includes`). -/
def charsInclude : List Char → List Char → Bool
  | [], pat => pat.isEmpty
  | s@(_ :: rest), pat => charsStartWith s pat || charsInclude rest pat

def strIncludes (s pat : String) : Bool :=
  charsInclude s.data pat.data

/-- `String.prototype.toLowerCase` (character-wise lowering). -/
def strToLower (s : String) : String :=
  ⟨s.data.map Char.toLower⟩

/-- `some (Json.bool false)` — the JS strict comparison `x.success === false`. -/
def isJsonFalse : Option Json → Bool
  | some (.bool false) => true
  | _ => false

/-- `some (Json.str "error")` — the JS strict comparison `x.status === 'error'`. -/
def isJsonErrorStr : Option Json → Bool
  | some (.str s) => s = "error"
  | _ => false

/-- The body-level error check of `verifySFResponse`: explicit success/status
flags, per-element success flags of an array body, and error-shaped keys
anywhere in the lower-cased serialized body. -/
def bodySignalsError (data : Json) : Bool :=
  let bodyStr := strToLower (jsonStringify data)
  isJsonFalse (jsonField data "success") ||
  isJsonFalse (jsonField data "Success") ||
  isJsonErrorStr (jsonField data "status") ||
  isJsonErrorStr (jsonField data "Status") ||
  (match data with
   | .arr elems => elems.any (fun d => isJsonFalse (jsonField d "success"))
   | _ => false) ||
  strIncludes bodyStr "\"errorcode\"" ||
  strIncludes bodyStr "\"errormessage\"" ||
  strIncludes bodyStr "\"exceptionmessage\""

/-- An HTTP response as seen by the service: status code plus parsed body. -/
structure SFResponse where
  status : Nat
  data : Json

/-- Errors raised inside one delivery unit: an axios rejection (which carries
the response when the server answered with a non-2xx status, and none on a
transport failure), or a plain `Error` thrown by `verifySFResponse`. -/
inductive DeliveryErr where
  | axios (message : String) (response : Option SFResponse)
  | verifyErr (message : String)

/-- `err.response?.status ?? 'N/A'` -/
def DeliveryErr.respStatus : DeliveryErr → Option Nat
  | .axios _ (some r) => some r.status
  | _ => none

/-- `err.response?.data ?? err.message` -/
inductive JsonOrMsg where
  | data (j : Json)
  | msg (s : String)

def DeliveryErr.detail : DeliveryErr → JsonOrMsg
  | .axios _ (some r) => .data r.data
  | .axios m none => .msg m
  | .verifyErr m => .msg m

/-- `verifySFResponse(response, label)`: any non-2xx status is an error, and a
2xx response is still an error when its body signals one. -/
def verifySFResponse (resp : SFResponse) (lbl : String) : Except DeliveryErr Unit :=
  if resp.status < 200 || 300 ≤ resp.status then
    .error (.verifyErr ("[" ++ lbl ++ "] HTTP " ++ toString resp.status ++
      ": " ++ jsonStringify resp.data))
  else if jsTruthy resp.data && bodySignalsError resp.data then
    .error (.verifyErr ("[" ++ lbl ++ "] SF error in body: " ++ jsonStringify resp.data))
  else
    .ok ()

/-! ## Retry executor (`withRetry`) -/

/-- Configuration fallback defaults from the source. -/
def MAX_RETRIES : Nat := 3

def RETRY_DELAY : Nat := 1500

def CONCURRENCY : Nat := 5

/-- Observable trace of one `withRetry` run: how many attempts were executed,
which back-off delays were awaited (in order), and the final outcome. -/
structure RetryTrace (ε α : Type) where
  attemptsMade : Nat
  sleeps : List Nat
  result : Except ε α

/-- The retry loop from attempt number `attempt` with `fuel` further attempts
allowed after the current one. On failure with fuel left, the loop sleeps
`base * attempt` and moves to the next attempt; on the last attempt it stops
immediately, remembering the last error. -/
def withRetryGo {ε α : Type} (base : Nat) (f : Nat → Except ε α) :
    Nat → Nat → RetryTrace ε α
  | attempt, 0 =>
    match f attempt with
    | .ok a => ⟨1, [], .ok a⟩
    | .error e => ⟨1, [], .error e⟩
  | attempt, fuel + 1 =>
    match f attempt with
    | .ok a => ⟨1, [], .ok a⟩
    | .error _ =>
      let rest := withRetryGo base f (attempt + 1) fuel
      ⟨rest.attemptsMade + 1, base * attempt :: rest.sleeps, rest.result⟩

/-- `withRetry(fn, label, maxRetries)` for `maxRetries ≥ 1` (every call site
passes the default `MAX_RETRIES = 3`; the `parseInt(..) || 3` fallback makes a
zero budget impossible). `f n` is the outcome of the `n`-th attempt,
`n = 1, 2, ...`; `base` is the `RETRY_DELAY` configuration value. -/
def withRetry {ε α : Type} (base : Nat) (f : Nat → Except ε α)
    (maxRetries : Nat) : RetryTrace ε α :=
  withRetryGo base f 1 (maxRetries - 1)

/-! ## Concurrency pool (`runWithConcurrency`)

The source creates `Math.min(concurrency, tasks.length)` async workers; each
worker repeatedly claims the next task index (`const i = index++`) and runs it
(`results[i] = await tasks[i]()`), and the pool awaits `Promise.all(workers)`.
We model a task by its eventual outcome (`Except ε α`), and the event loop by a
scheduling oracle: at each step the oracle picks which in-flight worker's task
settles next. A settled `.error` rejects that worker and hence the whole
`Promise.all`; a settled `.ok` is written into the result slot of the task's
original index and the worker claims the next pending task. -/

/-- Workers created by the pool: `Math.min(concurrency, tasks.length)`. -/
def poolWorkerCount (concurrency taskCount : Nat) : Nat :=
  min concurrency taskCount

/-- Run the pool to quiescence. `results` is the result array, `pending` the
unclaimed `(index, task)` pairs in index order, and `active` the in-flight
`(workerId, index, task)` entries; `oracle t` picks (mod the number of
in-flight workers) whose task settles at step `t`. -/
def poolGo {ε α : Type} (oracle : Nat → Nat) :
    List (Option α) → List (Nat × Except ε α) → List (Nat × Nat × Except ε α) →
    Nat → Except ε (List (Option α))
  | results, _, [], _ => .ok results
  | results, pending, a :: rest, t =>
    have hk : oracle t % (a :: rest).length < (a :: rest).length :=
      Nat.mod_lt _ (Nat.succ_pos _)
    match (a :: rest).get ⟨oracle t % (a :: rest).length, hk⟩ with
    | (_, _, .error e) => .error e
    | (wid, ti, .ok v) =>
      match pending with
      | [] =>
        poolGo oracle (results.set ti (some v)) []
          ((a :: rest).eraseIdx (oracle t % (a :: rest).length)) (t + 1)
      | p :: ps =>
        poolGo oracle (results.set ti (some v)) ps
          ((a :: rest).eraseIdx (oracle t % (a :: rest).length) ++ [(wid, p.1, p.2)])
          (t + 1)
  termination_by _ pending active _ => pending.length + active.length
  decreasing_by
    · have hlen := List.length_eraseIdx_of_lt hk
      simp only [List.length_cons] at hlen ⊢
      omega
    · have hlen := List.length_eraseIdx_of_lt hk
      simp only [List.length_append, List.length_cons, List.length_nil] at hlen ⊢
      omega

/-- `runWithConcurrency(tasks, concurrency)` under the scheduling oracle:
worker `w` (for `w < min concurrency tasks.length`) starts by claiming task
`w`; the remaining tasks are pending. -/
def runWithConcurrency {ε α : Type} (tasks : List (Except ε α))
    (concurrency : Nat) (oracle : Nat → Nat) : Except ε (List (Option α)) :=
  let wc := poolWorkerCount concurrency tasks.length
  poolGo oracle (List.replicate tasks.length none) (tasks.enum.drop wc)
    ((tasks.enum.take wc).map (fun e => (e.1, e.1, e.2))) 0

/-! ## One product delivery unit (`upsertProducts` task body) -/

/-- What one HTTP attempt does: either the request fails at transport level
(axios rejects with no response attached), or an HTTP exchange completes with
some status and body. -/
inductive AttemptOutcome where
  | netError (message : String)
  | response (resp : SFResponse)

/-- axios `post` semantics: a completed exchange resolves only for a 2xx
status; any other status rejects with the response attached. -/
def axiosTry : AttemptOutcome → Except DeliveryErr SFResponse
  | .netError m => .error (.axios m none)
  | .response r =>
    if 200 ≤ r.status ∧ r.status < 300 then .ok r
    else .error (.axios ("Request failed with status code " ++ toString r.status) (some r))

/-- The delivery core of one product task: the raw post is wrapped by
`withRetry`, and `verifySFResponse` runs on the value `withRetry` returned —
i.e. after the retry loop has already finished. `attempts n` is the outcome of
the `n`-th HTTP attempt. -/
def deliverResult (lbl : String) (attempts : Nat → AttemptOutcome)
    (maxRetries : Nat) : Except DeliveryErr SFResponse :=
  match (withRetry RETRY_DELAY (fun n => axiosTry (attempts n)) maxRetries).result with
  | .error e => .error e
  | .ok resp =>
    match verifySFResponse resp lbl with
    | .error e => .error e
    | .ok _ => .ok resp

/-- Entry pushed into `results.success` / `results.failed` by a product task. -/
inductive UnitOutcome where
  | success (code : String) (status : Nat) (data : Json)
  | failed (code : String) (status : Option Nat) (error : JsonOrMsg)

def UnitOutcome.isSuccess : UnitOutcome → Bool
  | .success _ _ _ => true
  | .failed _ _ _ => false

/-- One task built by `upsertProducts`: deliver with retries, verify, and
record the outcome; every error is caught inside the task, so the task itself
never throws. -/
def productTask (code : String) (attempts : Nat → AttemptOutcome)
    (maxRetries : Nat) : UnitOutcome :=
  match deliverResult code attempts maxRetries with
  | .ok resp => .success code resp.status resp.data
  | .error e => .failed code e.respStatus e.detail

/-- Per-unit outcomes of an `upsertProducts` run over codes `codes`, where
`attempts i n` is the outcome of unit `i`'s `n`-th HTTP attempt. -/
def unitOutcomes (codes : List String) (attempts : Nat → Nat → AttemptOutcome)
    (maxRetries : Nat) : List UnitOutcome :=
  codes.enum.map (fun e => productTask e.2 (attempts e.1) maxRetries)

/-- Success/failure summary returned by `upsertProducts`. -/
structure UpsertResults where
  success : List UnitOutcome
  failed : List UnitOutcome

/-- `upsertProducts` at summary level: run every unit (each unit catches its
own failure), then raise only when there was at least one outcome and every
outcome failed; otherwise return the summary object. -/
def upsertProducts (codes : List String) (attempts : Nat → Nat → AttemptOutcome)
    (maxRetries : Nat) : Except String UpsertResults :=
  let outs := unitOutcomes codes attempts maxRetries
  let succ := outs.filter (fun o => o.isSuccess)
  let fail := outs.filter (fun o => !o.isSuccess)
  if succ.length = 0 ∧ 0 < fail.length then
    .error ("All " ++ toString fail.length ++ " product upsert(s) failed.")
  else
    .ok ⟨succ, fail⟩

/-! ## Row-to-document mapper (`dataMapper.js`) -/

/-- One flat SQL row of the product result set. SQL `NULL` is `none`. -/
structure Row where
  ProductCode : String
  ProductName : Option String
  ProductIsActive : Option Int
  ProductGroupCode : Option String
  ShortDesc : Option String
  DetailedDesc : Option String
  CategoryName : Option String
  StyleCode : Option String
  SizeCode : Option String
  DivisionCode : Option String
  UOM : Option String
  AttributeSetName : Option String
  SizeGroup : Option String
  HSNCode : Option String
  Brand : Option String
  SalPackUn : Option Int
  ColorCode : Option String
  ColorName : Option String
  Color : Option String
  Shade : Option String
  Min_Qty : Option Int
  Max_Qty : Option Int
  IsCoreColor : Option Int
  AttrVal : Option String
  AttributeName : Option String
  IsMainAttribute : Option Int
  IsFilterApplicable : Option Int
  AttributeValType : Option Int
  AttrSortingVal : Option Int
  TaxBelow2500 : Option Rat
  TaxAbove2500 : Option Rat
  SubBrandCode : Option String

/-- JS truthiness of a nullable string field (`row.X && ...`). -/
def truthyStr : Option String → Bool
  | some s => s != ""
  | none => false

/-- JS `x || d` on a nullable number: both `null` and `0` fall back to `d`. -/
def jsOrInt : Option Int → Int → Int
  | some n, d => if n = 0 then d else n
  | none, d => d

/-- `Number(val).toFixed(2)`: round to the nearest hundredth (half away from
zero for the nonnegative rates that occur) and render with two decimals. -/
def toFixed2 (q : Rat) : String :=
  let c : Int := Int.fdiv (q.num * 200 + (q.den : Int)) (2 * (q.den : Int))
  let whole : Int := Int.fdiv c 100
  let frac : Nat := (Int.emod c 100).toNat
  toString whole ++ "." ++ (if frac < 10 then "0" else "") ++ toString frac

/-- The fixed remap table: a formatted `"12.00"` is recorded as `"18.00"`. -/
def TAX_REMAP (s : String) : Option String :=
  if s = "12.00" then some "18.00" else none

/-- `formatTax(val)`: `null` stays `null`; otherwise format to two decimals
and apply the remap table (`TAX_REMAP[formatted] ?? formatted`). -/
def formatTax : Option Rat → Option String
  | none => none
  | some v => some ((TAX_REMAP (toFixed2 v)).getD (toFixed2 v))

structure ProductInfo where
  ProductCode : String
  ProductName : Option String
  IsActive : Option Int
  GroupCode : Option String
  ShortDesc : Option String
  DetailedDesc : Option String
  CategoryName : Option String
  StyleCode : Option String
  SizeCode : Option String
  DivisionCode : Option String
  UOM : Option String
  AttributeSetName : Option String
  SizeGroup : Option String
  HSNCode : Option String
  Brand : Option String
  SalPackUn : Option Int
  DfltWH : Option String
  Sku : String
  Popularity : Int
  HideItem : Int
  SortBy : Int
  PreBooking : Int
  Tag : Option String

structure ColorEntry where
  ColorCode : String
  ColorName : Option String
  Color : Option String
  IsActive : Int
  Shade : Option String
  Min_Qty : Int
  Max_Qty : Int
  IsCoreColor : Option Int

structure AttributeInner where
  AttributeName : String
  IsMainAttribute : Int
  IsFilterApplicable : Int
  AttributeValType : Int
  SortingVal : Int
  IsActive : Int

structure AttributeSetInfo where
  AttributeSetName : Option String
  IsActive : Int

structure AttributeEntry where
  AttrVal : String
  IsActive : Int
  Attribute : AttributeInner
  AttributeSet : AttributeSetInfo

structure TaxEntry where
  TaxPer : Option String
  EvalExpression : String

structure SubBrandEntry where
  SubBrandCode : String
  BPProductName : Option String
  DisplayName : Option String
  IsActive : Int
  SKU : Option String
  AltSKU : Option String

structure DefaultsEntry where
  GroupCode : Option String
  StyleCode : Option String
  SizeCode : Option String
  ColorCode : Option String
  IsActive : Int
  DivisionCode : Option String

structure GroupEntry where
  GroupCode : Option String
  IsActive : Int
  SortingVal : Int

structure GrouppingEntry where
  GroupingName : Option String
  GroupCode : Option String
  IsActive : Int

/-- The nested product document sent to the upsert endpoint. -/
structure SFDoc where
  Product : ProductInfo
  ProductColors : List ColorEntry
  ProductAttributes : List AttributeEntry
  ProductTaxes : List (List TaxEntry)
  ProductSubBrands : List SubBrandEntry
  ProductDefaults : List DefaultsEntry
  PROD_PRODUCTGROUP : List GroupEntry
  ProductGroupGroupping : List GrouppingEntry

def colorEntry (row : Row) (cc : String) : ColorEntry :=
  { ColorCode := cc
    ColorName := row.ColorName
    Color := row.Color
    IsActive := 1
    Shade := row.Shade
    Min_Qty := jsOrInt row.Min_Qty 1
    Max_Qty := jsOrInt row.Max_Qty 100000
    IsCoreColor := row.IsCoreColor }

def pushColor (row : Row) (colors : List ColorEntry) : List ColorEntry :=
  match row.ColorCode with
  | some cc =>
    if cc ≠ "" ∧ ¬ colors.any (fun c => c.ColorCode = cc) then
      colors ++ [colorEntry row cc]
    else colors
  | none => colors

/-- The composite dedup key `` `${AttributeName}_${AttrVal}` ``. -/
def attrKey (a : AttributeEntry) : String :=
  a.Attribute.AttributeName ++ "_" ++ a.AttrVal

def attributeEntry (row : Row) (name val : String) : AttributeEntry :=
  { AttrVal := val
    IsActive := 1
    Attribute :=
      { AttributeName := name
        IsMainAttribute := row.IsMainAttribute.getD 1
        IsFilterApplicable := row.IsFilterApplicable.getD 1
        AttributeValType := row.AttributeValType.getD 1
        SortingVal := row.AttrSortingVal.getD 1
        IsActive := 1 }
    AttributeSet := { AttributeSetName := row.AttributeSetName, IsActive := 1 } }

def pushAttr (row : Row) (attrs : List AttributeEntry) : List AttributeEntry :=
  match row.AttrVal, row.AttributeName with
  | some val, some name =>
    if val ≠ "" ∧ name ≠ "" ∧ ¬ attrs.any (fun a => attrKey a = name ++ "_" ++ val) then
      attrs ++ [attributeEntry row name val]
    else attrs
  | _, _ => attrs

def pushTaxBelow (row : Row) (taxes : List TaxEntry) : List TaxEntry :=
  if row.TaxBelow2500.isSome ∧ ¬ taxes.any (fun t => t.EvalExpression = "Price < 2500") then
    taxes ++ [⟨formatTax row.TaxBelow2500, "Price < 2500"⟩]
  else taxes

def pushTaxAbove (row : Row) (taxes : List TaxEntry) : List TaxEntry :=
  if row.TaxAbove2500.isSome ∧ ¬ taxes.any (fun t => t.EvalExpression = "Price >= 2500") then
    taxes ++ [⟨formatTax row.TaxAbove2500, "Price >= 2500"⟩]
  else taxes

/-- The two tax-slot pushes of one row, in source order: the below-threshold
slot first, then the at/above-threshold slot against the updated array. -/
def pushTaxes (row : Row) (taxes : List TaxEntry) : List TaxEntry :=
  pushTaxAbove row (pushTaxBelow row taxes)

def subBrandEntry (row : Row) (sbc : String) : SubBrandEntry :=
  { SubBrandCode := sbc
    BPProductName := row.ProductName
    DisplayName := row.ProductName
    IsActive := 1
    SKU := none
    AltSKU := none }

def pushSubBrand (row : Row) (sbs : List SubBrandEntry) : List SubBrandEntry :=
  match row.SubBrandCode with
  | some sbc =>
    if sbc ≠ "" ∧ sbs.isEmpty then sbs ++ [subBrandEntry row sbc] else sbs
  | none => sbs

def defaultsEntry (row : Row) : DefaultsEntry :=
  { GroupCode := row.ProductGroupCode
    StyleCode := row.StyleCode
    SizeCode := row.SizeCode
    ColorCode := row.ColorCode
    IsActive := 1
    DivisionCode := row.DivisionCode }

def pushDefaults (row : Row) (l : List DefaultsEntry) : List DefaultsEntry :=
  if l.isEmpty then l ++ [defaultsEntry row] else l

def groupEntry (row : Row) : GroupEntry :=
  { GroupCode := row.ProductGroupCode, IsActive := 1, SortingVal := 1 }

def pushGroup (row : Row) (l : List GroupEntry) : List GroupEntry :=
  if l.isEmpty then l ++ [groupEntry row] else l

def grouppingEntry (row : Row) : GrouppingEntry :=
  { GroupingName := row.CategoryName, GroupCode := row.ProductGroupCode, IsActive := 1 }

def pushGroupping (row : Row) (l : List GrouppingEntry) : List GrouppingEntry :=
  if l.isEmpty then l ++ [grouppingEntry row] else l

/-- The document created when a product code is first seen: identity snapshot
from that row, fixed defaulted business fields, empty child arrays (with the
tax child initialised to `[[]]`). -/
def initDoc (row : Row) : SFDoc :=
  { Product :=
      { ProductCode := row.ProductCode
        ProductName := row.ProductName
        IsActive := row.ProductIsActive
        GroupCode := row.ProductGroupCode
        ShortDesc := row.ShortDesc
        DetailedDesc := row.DetailedDesc
        CategoryName := row.CategoryName
        StyleCode := row.StyleCode
        SizeCode := row.SizeCode
        DivisionCode := row.DivisionCode
        UOM := row.UOM
        AttributeSetName := row.AttributeSetName
        SizeGroup := row.SizeGroup
        HSNCode := row.HSNCode
        Brand := row.Brand
        SalPackUn := row.SalPackUn
        DfltWH := none
        Sku := row.ProductCode
        Popularity := 0
        HideItem := 0
        SortBy := 0
        PreBooking := 1
        Tag := row.ProductName }
    ProductColors := []
    ProductAttributes := []
    ProductTaxes := [[]]
    ProductSubBrands := []
    ProductDefaults := []
    PROD_PRODUCTGROUP := []
    ProductGroupGroupping := [] }

/-- Processing one row against the (possibly fresh) document of its group:
each repeating-group dimension appends at most one deduplicated child entry,
and the singleton children are filled only while still empty. -/
def updateProduct (row : Row) (p : SFDoc) : SFDoc :=
  { p with
    ProductColors := pushColor row p.ProductColors
    ProductAttributes := pushAttr row p.ProductAttributes
    ProductTaxes := [pushTaxes row (p.ProductTaxes.headD [])]
    ProductSubBrands := pushSubBrand row p.ProductSubBrands
    ProductDefaults := pushDefaults row p.ProductDefaults
    PROD_PRODUCTGROUP := pushGroup row p.PROD_PRODUCTGROUP
    ProductGroupGroupping := pushGroupping row p.ProductGroupGroupping }

/-- The `BUILD MAP` loop of `mapToSalesforcePayload`. -/
def buildMap (rows : List Row) : List (String × SFDoc) :=
  rows.foldl (fun m row => assocUpd row.ProductCode (initDoc row) (updateProduct row) m) []

/-- The synthesized placeholder attribute (`SAFETY FIX`). -/
def mandatoryAttribute (attributeSetName : Option String) : AttributeEntry :=
  { AttrVal := "Default"
    IsActive := 1
    Attribute :=
      { AttributeName := "General"
        IsMainAttribute := 1
        IsFilterApplicable := 0
        AttributeValType := 1
        SortingVal := 1
        IsActive := 1 }
    AttributeSet := { AttributeSetName := attributeSetName, IsActive := 1 } }

/-- The post-grouping safety pass: a document whose attribute array is still
empty receives exactly one placeholder entry. -/
def safetyFix (p : SFDoc) : SFDoc :=
  if p.ProductAttributes.isEmpty then
    { p with ProductAttributes :=
        p.ProductAttributes ++ [mandatoryAttribute p.Product.AttributeSetName] }
  else p

/-- `mapToSalesforcePayload(rows)`. -/
def mapToSalesforcePayload (rows : List Row) : List SFDoc :=
  (buildMap rows).map (fun e => safetyFix e.2)

/-- The grouped document of one product's row subsequence, before the safety
pass: `none` when the group has no rows. -/
def buildGroup (grows : List Row) : Option SFDoc :=
  match grows with
  | [] => none
  | r :: rest => some (rest.foldl (fun p row => updateProduct row p) (updateProduct r (initDoc r)))

/-- The real (row-contributed) attribute entries of a group. -/
def groupAttrs (grows : List Row) : List AttributeEntry :=
  grows.foldl (fun l r => pushAttr r l) []

/-! ## Price-list mapper (`mapToPriceListPayload`) -/

/-- One flat SQL row of the price-list result set. -/
structure PriceRow where
  ProductCode : String
  PriceListID : Option Int
  SubBrandCode : Option String
  BPProductName : Option String
  PriceListCode : Option String
  EffectiveFrom : Option String
  EffectiveTo : Option String
  PriceListIsActive : Option Int
  BPCategory : Option String
  Price : Option Rat
  MRP : Option Rat
  PriceIsActive : Option Int

structure PriceEntry where
  PriceListID : Option Int
  BPCategory : Option String
  Price : Rat
  MRP : Rat
  IsActive : Int

structure PriceListEntry where
  PriceListID : Option Int
  SubBrandCode : Option String
  BPProductName : String
  PriceLisCode : Option String
  EffectiveFrom : Option String
  EffectiveTo : Option String
  IsActive : Int
  Prices : List PriceEntry

structure PriceListRec where
  ProductCode : String
  PriceList : List PriceListEntry

/-- The header entry created when a `PriceListID` sub-key is first seen. -/
def initPriceListEntry (row : PriceRow) : PriceListEntry :=
  { PriceListID := row.PriceListID
    SubBrandCode := row.SubBrandCode
    BPProductName := row.BPProductName.getD row.ProductCode
    PriceLisCode := row.PriceListCode
    EffectiveFrom := row.EffectiveFrom
    EffectiveTo := row.EffectiveTo
    IsActive := row.PriceListIsActive.getD 1
    Prices := [] }

def priceEntry (row : PriceRow) : PriceEntry :=
  { PriceListID := row.PriceListID
    BPCategory := row.BPCategory
    Price := row.Price.getD 0
    MRP := row.MRP.getD 0
    IsActive := row.PriceIsActive.getD 1 }

/-- Push one price-tier entry, skipping duplicates of the same `BPCategory`. -/
def pushPrice (row : PriceRow) (e : PriceListEntry) : PriceListEntry :=
  if e.Prices.any (fun p => p.BPCategory = row.BPCategory) then e
  else { e with Prices := e.Prices ++ [priceEntry row] }

/-- `mapToPriceListPayload(sqlRows)`: two-level grouping (product code, then
price-list id), flattened to records carrying their header entries. -/
def mapToPriceListPayload (sqlRows : List PriceRow) : List PriceListRec :=
  let productMap := sqlRows.foldl (fun m row =>
    assocUpd row.ProductCode []
      (fun plmap => assocUpd row.PriceListID (initPriceListEntry row) (pushPrice row) plmap)
      m) ([] : List (String × List (Option Int × PriceListEntry)))
  productMap.map (fun e => { ProductCode := e.1, PriceList := e.2.map (fun pe => pe.2) })

/-! ## Sync controller (`syncProducts`)

The controller pages through the DB (`getProductData(lastProductSync, offset,
PAGE_SIZE)`), maps each page and delivers it via `upsertProducts`, accumulating
a run summary. `allRows` stands for the full row sequence the DB would serve
for the current watermark; a page fetch is `drop offset |>.take PAGE_SIZE` of
it, and `fetchFault pg` injects a thrown DB error on page `pg`. Partial
per-unit failures are folded into the summary; only a thrown error aborts the
run. The watermark is reassigned to `now` exactly when the loop completes. -/

structure RunSummary where
  totalDbRows : Nat
  totalMapped : Nat
  totalSuccess : Nat
  totalFailed : Nat
  failedProducts : List String
  pages : Nat

def UnitOutcome.code : UnitOutcome → String
  | .success c _ _ => c
  | .failed c _ _ => c

/-- Fold one delivered page into the run summary. -/
def accumPage (acc : RunSummary) (rowCount mappedCount : Nat)
    (res : UpsertResults) : RunSummary :=
  { acc with
    totalDbRows := acc.totalDbRows + rowCount
    totalMapped := acc.totalMapped + mappedCount
    totalSuccess := acc.totalSuccess + res.success.length
    totalFailed := acc.totalFailed + res.failed.length
    failedProducts := acc.failedProducts ++ res.failed.map (fun f => f.code)
    pages := acc.pages }

/-- Mapping and delivery of one fetched page: map the page's rows, and when
the payload is nonempty deliver it through `upsertProducts`, folding the
result into the running summary; an `upsertProducts` throw propagates. -/
def pageStep (pageSize maxRetries : Nat) (attempts : Nat → Nat → Nat → AttemptOutcome)
    (pg : Nat) (remaining : List Row) (acc : RunSummary) : Except String RunSummary :=
  let rows := remaining.take pageSize
  let acc' := { acc with pages := pg }
  let payload := mapToSalesforcePayload rows
  if payload.length > 0 then
    match upsertProducts (payload.map (fun d => d.Product.ProductCode))
        (attempts pg) maxRetries with
    | .error e => .error e
    | .ok res => .ok (accumPage acc' rows.length payload.length res)
  else
    .ok { acc' with totalDbRows := acc'.totalDbRows + rows.length }

/-- The pagination loop of `syncProducts`. `remaining` is the suffix of
`allRows` not yet fetched (the source tracks the same thing through `offset`);
`pg` is the 1-based page counter; `attempts pg i n` is the `n`-th HTTP attempt
of unit `i` on page `pg`. -/
def syncGo (pageSize maxRetries : Nat) (fetchFault : Nat → Option String)
    (attempts : Nat → Nat → Nat → AttemptOutcome) :
    List Row → Nat → RunSummary → Except String RunSummary
  | remaining, pg, acc =>
    match fetchFault pg with
    | some e => .error e
    | none =>
      let rows := remaining.take pageSize
      if hrows : rows.isEmpty then .ok { acc with pages := pg }
      else
        match pageStep pageSize maxRetries attempts pg remaining acc with
        | .error e => .error e
        | .ok acc' =>
          if rows.length < pageSize then .ok acc'
          else syncGo pageSize maxRetries fetchFault attempts
            (remaining.drop pageSize) (pg + 1) acc'
  termination_by remaining _ _ => remaining.length
  decreasing_by
    have h2 : 0 < pageSize := by
      rcases Nat.eq_zero_or_pos pageSize with h | h
      · exact absurd (show (List.take pageSize remaining).isEmpty = true by rw [h]; simp) hrows
      · exact h
    have h1 : 0 < remaining.length := by
      rcases remaining with _ | ⟨a, l⟩
      · exact absurd (show (List.take pageSize ([] : List Row)).isEmpty = true by simp) hrows
      · simp
    simp only [List.length_drop]
    omega

def initialSummary : RunSummary :=
  { totalDbRows := 0, totalMapped := 0, totalSuccess := 0, totalFailed := 0,
    failedProducts := [], pages := 0 }

/-- `syncProducts`: run the pagination loop from the current watermark's row
set; on normal completion reassign the watermark to `now` and report the
summary (HTTP 200, even with per-unit failures); on a thrown error leave the
watermark at `wm` and report the error (HTTP 500). -/
def syncProducts (allRows : List Row) (pageSize maxRetries : Nat)
    (fetchFault : Nat → Option String)
    (attempts : Nat → Nat → Nat → AttemptOutcome)
    (wm now : Nat) : Nat × Except String RunSummary :=
  match syncGo pageSize maxRetries fetchFault attempts allRows 1 initialSummary with
  | .ok s => (now, .ok s)
  | .error e => (wm, .error e)

/-! ## Retry executor: exhaustion behaviour (C4) -/

theorem withRetryGo_allFail {ε α : Type} (base : Nat) (f : Nat → Except ε α)
    (err : Nat → ε) (hf : ∀ n, f n = .error (err n)) :
    ∀ fuel attempt, withRetryGo base f attempt fuel =
      ⟨fuel + 1, (List.range fuel).map (fun i => base * (attempt + i)),
        .error (err (attempt + fuel))⟩ := by
  intro fuel
  induction fuel with
  | zero =>
    intro attempt
    simp [withRetryGo, hf attempt]
  | succ n ih =>
    intro attempt
    simp only [withRetryGo, hf attempt, ih (attempt + 1)]
    refine congrArg₂ (RetryTrace.mk (n + 1 + 1)) ?_ (congrArg (Except.error ∘ err) (by omega))
    rw [List.range_succ_eq_map]
    simp only [List.map_cons, List.map_map, Nat.add_zero]
    refine congrArg₂ _ rfl (List.map_congr_left ?_)
    intro i _
    simp only [Function.comp_apply]
    congr 1
    omega

/-- C4: a task failing on every attempt is executed by `withRetry` exactly
`maxRetries` times; the raised error is the final attempt's error; between
attempt `n` and attempt `n + 1` the loop sleeps `base * n` (linear back-off);
and no sleep follows the final failed attempt (the sleep list has exactly
`maxRetries - 1` entries, one per non-final attempt). -/
theorem withRetry_exhaustion {ε α : Type} (base maxRetries : Nat)
    (f : Nat → Except ε α) (err : Nat → ε)
    (hmax : 1 ≤ maxRetries) (hf : ∀ n, f n = .error (err n)) :
    (withRetry base f maxRetries).attemptsMade = maxRetries ∧
    (withRetry base f maxRetries).result = .error (err maxRetries) ∧
    (withRetry base f maxRetries).sleeps =
      (List.range (maxRetries - 1)).map (fun n => base * (n + 1)) := by
  unfold withRetry
  rw [withRetryGo_allFail base f err hf (maxRetries - 1) 1]
  refine ⟨by show maxRetries - 1 + 1 = maxRetries; omega, ?_, ?_⟩
  · show Except.error (err (1 + (maxRetries - 1))) = Except.error (err maxRetries)
    have h1 : 1 + (maxRetries - 1) = maxRetries := by omega
    rw [h1]
  · show (List.range (maxRetries - 1)).map (fun i => base * (1 + i)) =
      (List.range (maxRetries - 1)).map (fun n => base * (n + 1))
    refine List.map_congr_left ?_
    intro i _
    ring

/-- Witness for C4 at `base = RETRY_DELAY`, `maxRetries = 3`, and a task that
always fails: three attempts, the last error raised, sleeps `[1500, 3000]`. -/
theorem withRetry_exhaustion_witness :
    (withRetry RETRY_DELAY (fun _ => (Except.error "boom" : Except String Unit)) 3).attemptsMade = 3 ∧
    (withRetry RETRY_DELAY (fun _ => (Except.error "boom" : Except String Unit)) 3).result =
      .error "boom" ∧
    (withRetry RETRY_DELAY (fun _ => (Except.error "boom" : Except String Unit)) 3).sleeps =
      [1500, 3000] := by
  have h := withRetry_exhaustion RETRY_DELAY 3
    (fun _ => (Except.error "boom" : Except String Unit)) (fun _ => "boom")
    (by decide) (fun _ => rfl)
  refine ⟨h.1, h.2.1, ?_⟩
  rw [h.2.2]
  decide

/-! ## Retry executor and body verification: 2xx application errors (C1) -/

theorem withRetry_firstOk {ε α : Type} (base maxRetries : Nat)
    (f : Nat → Except ε α) (a : α) (h : f 1 = .ok a) :
    withRetry base f maxRetries = ⟨1, [], .ok a⟩ := by
  unfold withRetry
  cases hm : maxRetries - 1 with
  | zero => simp [withRetryGo, h]
  | succ n => simp [withRetryGo, h]

/-- C1 (amended): a 2xx response whose body signals an application-level error
is never accepted as a success, but it is not retried either: axios resolves a
2xx response, so `withRetry` returns after that single attempt, and
`verifySFResponse` — which runs only on the value `withRetry` returned — then
throws once, outside the retry loop. The unit fails immediately with its
remaining retry budget unused. -/
theorem appError_not_retried (code : String) (attempts : Nat → AttemptOutcome)
    (maxRetries : Nat) (r : SFResponse)
    (h1 : attempts 1 = .response r)
    (h2xx : 200 ≤ r.status ∧ r.status < 300)
    (htruthy : jsTruthy r.data = true)
    (herr : bodySignalsError r.data = true) :
    (withRetry RETRY_DELAY (fun n => axiosTry (attempts n)) maxRetries).attemptsMade = 1 ∧
    productTask code attempts maxRetries =
      .failed code none (.msg ("[" ++ code ++ "] SF error in body: " ++
        jsonStringify r.data)) := by
  have hax : axiosTry (attempts 1) = .ok r := by
    rw [h1]
    simp [axiosTry, h2xx]
  have hwr := withRetry_firstOk RETRY_DELAY maxRetries
    (fun n => axiosTry (attempts n)) r hax
  refine ⟨by rw [hwr], ?_⟩
  unfold productTask deliverResult
  rw [hwr]
  have hcond : ¬ (r.status < 200 || 300 ≤ r.status) = true := by
    simp only [Bool.or_eq_true, decide_eq_true_eq]
    omega
  simp [verifySFResponse, hcond, htruthy, herr, DeliveryErr.respStatus, DeliveryErr.detail]

/-- The attempt pattern of a unit whose every HTTP exchange completes with
status 200 and a body carrying `success: false`. -/
def cexAttempts : Nat → AttemptOutcome :=
  fun _ => .response ⟨200, Json.obj [("success", Json.bool false)]⟩

/-- C1 counterexample: with a retry budget of 3, a 2xx response whose body
signals an application error does not trigger another attempt — the wrapper
performs exactly one attempt (budget not exhausted) and the unit is raised as
failed without retrying. -/
theorem appError_counterexample :
    (withRetry RETRY_DELAY (fun n => axiosTry (cexAttempts n)) 3).attemptsMade = 1 ∧
    (productTask "P1" cexAttempts 3).isSuccess = false := by
  decide

/-- Witness for the amended C1 at the concrete 200/`success: false` response. -/
theorem appError_not_retried_witness :
    (withRetry RETRY_DELAY (fun n => axiosTry (cexAttempts n)) 5).attemptsMade = 1 ∧
    productTask "P1" cexAttempts 5 =
      .failed "P1" none (.msg ("[" ++ "P1" ++ "] SF error in body: " ++
        jsonStringify (Json.obj [("success", Json.bool false)]))) := by
  exact appError_not_retried "P1" cexAttempts 5
    ⟨200, Json.obj [("success", Json.bool false)]⟩ rfl (by decide) (by decide) (by decide)

/-! ## Tax formatting and null tax slots (C7) -/

/-- C7: `formatTax` maps `12` to `"18.00"` (remapped by the fixed table) and
`12.5` (`mkRat 25 2`) to `"12.50"` (no remap); and a row whose tax source
field is null contributes no entry at all for that tax slot — the slot's
entries after the push are exactly the slot's entries before it. -/
theorem formatTax_spec :
    formatTax (some 12) = some "18.00" ∧
    formatTax (some (mkRat 25 2)) = some "12.50" ∧
    formatTax none = none ∧
    (∀ (row : Row) (taxes : List TaxEntry), row.TaxBelow2500 = none →
      (pushTaxes row taxes).filter (fun t => t.EvalExpression = "Price < 2500") =
        taxes.filter (fun t => t.EvalExpression = "Price < 2500")) ∧
    (∀ (row : Row) (taxes : List TaxEntry), row.TaxAbove2500 = none →
      (pushTaxes row taxes).filter (fun t => t.EvalExpression = "Price >= 2500") =
        taxes.filter (fun t => t.EvalExpression = "Price >= 2500")) := by
  refine ⟨by decide, by decide, rfl, ?_, ?_⟩
  · intro row taxes hnull
    unfold pushTaxes pushTaxBelow pushTaxAbove
    rw [hnull]
    simp only [Option.isSome_none, Bool.false_eq_true, false_and, if_false]
    by_cases h : row.TaxAbove2500.isSome = true ∧
        ¬ taxes.any (fun t => t.EvalExpression = "Price >= 2500") = true
    · rw [if_pos h, List.filter_append]
      simp
    · rw [if_neg h]
  · intro row taxes hnull
    unfold pushTaxes pushTaxBelow pushTaxAbove
    by_cases h : row.TaxBelow2500.isSome = true ∧
        ¬ taxes.any (fun t => t.EvalExpression = "Price < 2500") = true
    · rw [if_pos h, hnull]
      simp only [Option.isSome_none, Bool.false_eq_true, false_and, if_false]
      rw [List.filter_append]
      simp
    · rw [if_neg h, hnull]
      simp only [Option.isSome_none, Bool.false_eq_true, false_and, if_false]

/-- Witness for C7's null-slot clauses at a concrete row and tax list. -/
theorem formatTax_spec_witness :
    (pushTaxes
      { ProductCode := "A", ProductName := none, ProductIsActive := none,
        ProductGroupCode := none, ShortDesc := none, DetailedDesc := none,
        CategoryName := none, StyleCode := none, SizeCode := none,
        DivisionCode := none, UOM := none, AttributeSetName := none,
        SizeGroup := none, HSNCode := none, Brand := none, SalPackUn := none,
        ColorCode := none, ColorName := none, Color := none, Shade := none,
        Min_Qty := none, Max_Qty := none, IsCoreColor := none, AttrVal := none,
        AttributeName := none, IsMainAttribute := none,
        IsFilterApplicable := none, AttributeValType := none,
        AttrSortingVal := none, TaxBelow2500 := none, TaxAbove2500 := none,
        SubBrandCode := none }
      []).filter (fun t => t.EvalExpression = "Price < 2500") = [] := by
  rw [formatTax_spec.2.2.2.1 _ [] rfl]
  rfl

/-! ## Partial vs total delivery failure (C5) -/

/-- C5: a run with mixed per-unit outcomes returns the summary object (with
the failed outcomes carried in full) instead of raising, while a nonempty run
in which every unit failed raises. -/
theorem upsertProducts_mixed_vs_total (codes : List String)
    (attempts : Nat → Nat → AttemptOutcome) (maxRetries : Nat) :
    ((∃ o ∈ unitOutcomes codes attempts maxRetries, o.isSuccess = true) →
     (∃ o ∈ unitOutcomes codes attempts maxRetries, o.isSuccess = false) →
      ∃ r, upsertProducts codes attempts maxRetries = .ok r ∧
        r.failed = (unitOutcomes codes attempts maxRetries).filter
          (fun o => !o.isSuccess) ∧
        0 < r.failed.length) ∧
    ((∀ o ∈ unitOutcomes codes attempts maxRetries, o.isSuccess = false) →
     codes ≠ [] →
      ∃ m, upsertProducts codes attempts maxRetries = .error m) := by
  constructor
  · intro hsucc hfail
    obtain ⟨os, hos, hos'⟩ := hsucc
    obtain ⟨of, hof, hof'⟩ := hfail
    have hsuccNe : os ∈ (unitOutcomes codes attempts maxRetries).filter
        (fun o => o.isSuccess) := List.mem_filter.2 ⟨hos, by simp [hos']⟩
    have hfailNe : of ∈ (unitOutcomes codes attempts maxRetries).filter
        (fun o => !o.isSuccess) := List.mem_filter.2 ⟨hof, by simp [hof']⟩
    have hslen : ((unitOutcomes codes attempts maxRetries).filter
        (fun o => o.isSuccess)).length ≠ 0 := by
      intro h
      rw [List.length_eq_zero] at h
      simp [h] at hsuccNe
    have hflen : 0 < ((unitOutcomes codes attempts maxRetries).filter
        (fun o => !o.isSuccess)).length :=
      List.length_pos.2 (fun h => by simp [h] at hfailNe)
    refine ⟨⟨(unitOutcomes codes attempts maxRetries).filter (fun o => o.isSuccess),
      (unitOutcomes codes attempts maxRetries).filter (fun o => !o.isSuccess)⟩,
      ?_, rfl, hflen⟩
    unfold upsertProducts
    rw [if_neg (fun hc => hslen hc.1)]
  · intro hall hne
    have hslen : ((unitOutcomes codes attempts maxRetries).filter
        (fun o => o.isSuccess)).length = 0 := by
      rw [List.length_eq_zero, List.filter_eq_nil_iff]
      intro o ho
      simp [hall o ho]
    have houts : (unitOutcomes codes attempts maxRetries).length = codes.length := by
      unfold unitOutcomes
      rw [List.length_map, List.enum_length]
    have hfall : (unitOutcomes codes attempts maxRetries).filter
        (fun o => !o.isSuccess) = unitOutcomes codes attempts maxRetries := by
      rw [List.filter_eq_self]
      intro o ho
      simp [hall o ho]
    have hflen : 0 < ((unitOutcomes codes attempts maxRetries).filter
        (fun o => !o.isSuccess)).length := by
      rw [hfall, houts]
      exact List.length_pos.2 hne
    refine ⟨"All " ++ toString ((unitOutcomes codes attempts maxRetries).filter
      (fun o => !o.isSuccess)).length ++ " product upsert(s) failed.", ?_⟩
    unfold upsertProducts
    rw [if_pos ⟨hslen, hflen⟩]

/-- Attempts for the C5 witness: unit 0 always succeeds cleanly, unit 1 always
fails at transport level. -/
def mixedAttempts : Nat → Nat → AttemptOutcome :=
  fun i _ =>
    if i = 0 then .response ⟨200, Json.obj []⟩ else .netError "ECONNRESET"

/-- Witness for C5: two units, one success and one failure — the run returns
a summary with exactly one failed outcome. -/
theorem upsertProducts_mixed_vs_total_witness :
    ∃ r, upsertProducts ["A", "B"] mixedAttempts 3 = .ok r ∧
      r.failed = (unitOutcomes ["A", "B"] mixedAttempts 3).filter
        (fun o => !o.isSuccess) ∧
      0 < r.failed.length := by
  refine (upsertProducts_mixed_vs_total ["A", "B"] mixedAttempts 3).1 ?_ ?_
  · refine ⟨productTask "A" (mixedAttempts 0) 3, ?_, ?_⟩
    · exact List.mem_cons_self _ _
    · rfl
  · refine ⟨productTask "B" (mixedAttempts 1) 3, ?_, ?_⟩
    · exact List.mem_cons_of_mem _ (List.mem_cons_self _ _)
    · rfl

/-! ## Concurrency pool lemmas (C3, C9) -/

theorem get_cons_eraseIdx_perm {γ : Type} (l : List γ) (k : Nat) (hk : k < l.length) :
    List.Perm (l.get ⟨k, hk⟩ :: l.eraseIdx k) l := by
  rw [List.eraseIdx_eq_take_drop_succ]
  conv_rhs => rw [← List.take_append_drop k l, List.drop_eq_get_cons hk]
  exact List.perm_middle.symm

/-- Pool invariant run: if every task eventually succeeds, the pool writes
each task's value into that task's original slot and returns the full array. -/
theorem poolGo_complete {ε α : Type} (oracle : Nat → Nat)
    (tasks : List (Except ε α)) (hok : ∀ tk ∈ tasks, tk.isOk = true) :
    ∀ (results : List (Option α)) (pending : List (Nat × Except ε α))
      (active : List (Nat × Nat × Except ε α)) (t : Nat) (m : Nat),
      results.length = tasks.length →
      m ≤ tasks.length →
      pending = tasks.enum.drop m →
      (∀ en ∈ active, en.2.1 < m ∧ tasks[en.2.1]? = some en.2.2) →
      (active.map (fun en => en.2.1)).Nodup →
      (∀ i, i < m → (∀ en ∈ active, en.2.1 ≠ i) →
        results[i]? = tasks[i]?.map Except.toOption) →
      (∀ i, i < tasks.length → (m ≤ i ∨ ∃ en ∈ active, en.2.1 = i) →
        results[i]? = some none) →
      (pending ≠ [] → active ≠ []) →
      poolGo oracle results pending active t = .ok (tasks.map Except.toOption) := by
  intro results pending active t
  induction results, pending, active, t using poolGo.induct oracle with
  | case1 results pending t =>
    intro m hres hm hpend hact hnd hdone hnone hne
    have hp : pending = [] := by
      by_contra hpne
      exact hne hpne rfl
    have hmN : m = tasks.length := by
      have hlen := congrArg List.length hpend
      rw [hp] at hlen
      simp only [List.length_nil, List.length_drop, List.enum_length] at hlen
      omega
    rw [poolGo]
    refine congrArg Except.ok (List.ext_getElem? ?_)
    intro n
    by_cases hn : n < tasks.length
    · rw [hdone n (by omega) (fun en hen => absurd hen (List.not_mem_nil en)),
        List.getElem?_map]
    · rw [List.getElem?_eq_none (by omega), List.getElem?_eq_none (by simp; omega)]
  | case2 results pending a rest t hk w j e hget =>
    intro m hres hm hpend hact hnd hdone hnone hne
    exfalso
    have hmem : (w, j, Except.error e) ∈ a :: rest := by
      rw [← hget]
      exact List.get_mem _ _ _
    have htj := (hact _ hmem).2
    have := hok _ (List.getElem?_mem htj)
    simp [Except.isOk, Except.toBool] at this
  | case3 results a rest t hk wid ti v hget ih =>
    intro m hres hm hpend hact hnd hdone hnone hne
    rw [poolGo]
    simp only [hget]
    set k := oracle t % (a :: rest).length with hkdef
    have hperm : List.Perm ((wid, ti, Except.ok v) :: (a :: rest).eraseIdx k)
        (a :: rest) := by
      rw [← hget]
      exact get_cons_eraseIdx_perm (a :: rest) k hk
    have hmem0 : (wid, ti, Except.ok v) ∈ a :: rest := hperm.subset (List.mem_cons_self _ _)
    obtain ⟨htim, htiv⟩ := hact _ hmem0
    have hsub : ∀ x ∈ (a :: rest).eraseIdx k, x ∈ a :: rest :=
      fun x hx => hperm.subset (List.mem_cons_of_mem _ hx)
    have hndall : (List.map (fun en => en.2.1)
        ((wid, ti, Except.ok v) :: (a :: rest).eraseIdx k)).Nodup :=
      ((hperm.map (fun en => en.2.1)).symm).nodup hnd
    rw [List.map_cons, List.nodup_cons] at hndall
    obtain ⟨hti_not, hnderase⟩ := hndall
    have htim' : ti < m := htim
    have htiv' : tasks[ti]? = some (Except.ok v) := htiv
    have hti_not' : ti ∉ List.map (fun en => en.2.1) ((a :: rest).eraseIdx k) := hti_not
    apply ih m
    · rw [List.length_set, hres]
    · exact hm
    · exact hpend
    · exact fun en hen => hact en (hsub en hen)
    · exact hnderase
    · intro i hi hino
      by_cases hit : i = ti
      · subst hit
        rw [List.getElem?_set_self (by rw [hres]; omega), htiv']
        rfl
      · rw [List.getElem?_set_ne (fun h => hit h.symm)]
        refine hdone i hi ?_
        intro en hen
        rcases List.mem_cons.1 (hperm.symm.subset hen) with h | h
        · subst h
          exact fun hc => hit hc.symm
        · exact hino en h
    · intro i hi hcond
      have hit : i ≠ ti := by
        rcases hcond with hcond | ⟨en, hen, hcond⟩
        · omega
        · intro hiteq
          subst hiteq
          refine hti_not' ?_
          rw [← hcond]
          exact List.mem_map.2 ⟨en, hen, rfl⟩
      rw [List.getElem?_set_ne (fun h => hit h.symm)]
      refine hnone i hi ?_
      rcases hcond with hcond | ⟨en, hen, hcond⟩
      · exact Or.inl hcond
      · exact Or.inr ⟨en, hsub en hen, hcond⟩
    · exact fun h => absurd rfl h
  | case4 results a rest t hk wid ti v hget p ps ih =>
    intro m hres hm hpend hact hnd hdone hnone hne
    rw [poolGo]
    simp only [hget]
    set k := oracle t % (a :: rest).length with hkdef
    have hperm : List.Perm ((wid, ti, Except.ok v) :: (a :: rest).eraseIdx k)
        (a :: rest) := by
      rw [← hget]
      exact get_cons_eraseIdx_perm (a :: rest) k hk
    have hmem0 : (wid, ti, Except.ok v) ∈ a :: rest := hperm.subset (List.mem_cons_self _ _)
    obtain ⟨htim, htiv⟩ := hact _ hmem0
    have htim' : ti < m := htim
    have htiv' : tasks[ti]? = some (Except.ok v) := htiv
    have hsub : ∀ x ∈ (a :: rest).eraseIdx k, x ∈ a :: rest :=
      fun x hx => hperm.subset (List.mem_cons_of_mem _ hx)
    have hndall : (List.map (fun en => en.2.1)
        ((wid, ti, Except.ok v) :: (a :: rest).eraseIdx k)).Nodup :=
      ((hperm.map (fun en => en.2.1)).symm).nodup hnd
    rw [List.map_cons, List.nodup_cons] at hndall
    obtain ⟨hti_not, hnderase⟩ := hndall
    have hti_not' : ti ∉ List.map (fun en => en.2.1) ((a :: rest).eraseIdx k) := hti_not
    have hmNlt : m < tasks.length := by
      have hlen := congrArg List.length hpend
      simp only [List.length_cons, List.length_drop, List.enum_length] at hlen
      omega
    have hdropeq : tasks.enum.drop m = (m, tasks[m]) :: tasks.enum.drop (m + 1) := by
      rw [List.drop_eq_getElem_cons (by simpa [List.enum_length] using hmNlt)]
      congr 1
      simp [List.enum]
    have hcons := hpend.trans hdropeq
    rw [List.cons.injEq] at hcons
    obtain ⟨hpeq, hpseq⟩ := hcons
    have hmlt_erase : ∀ en ∈ (a :: rest).eraseIdx k, en.2.1 < m :=
      fun en hen => (hact en (hsub en hen)).1
    apply ih (m + 1)
    · rw [List.length_set, hres]
    · omega
    · exact hpseq
    · intro en hen
      rcases List.mem_append.1 hen with h | h
      · have := hact en (hsub en h)
        exact ⟨by omega, this.2⟩
      · rw [List.mem_singleton] at h
        subst h
        rw [hpeq]
        exact ⟨by show m < m + 1; omega, List.getElem?_eq_getElem hmNlt⟩
    · rw [List.map_append]
      refine ((List.perm_append_singleton _ _).nodup_iff).2 ?_
      rw [List.nodup_cons]
      refine ⟨?_, hnderase⟩
      intro hmmem
      simp only [List.map_map, List.mem_map] at hmmem
      obtain ⟨en, hen, heq⟩ := hmmem
      have := hmlt_erase en hen
      rw [hpeq] at heq
      simp at heq
      omega
    · intro i hi hino
      have him : i ≠ m := by
        intro hieq
        subst hieq
        refine hino (wid, p.1, p.2) (List.mem_append.2 (Or.inr (List.mem_singleton_self _))) ?_
        rw [hpeq]
      by_cases hit : i = ti
      · subst hit
        rw [List.getElem?_set_self (by rw [hres]; omega), htiv']
        rfl
      · rw [List.getElem?_set_ne (fun h => hit h.symm)]
        refine hdone i (by omega) ?_
        intro en hen
        rcases List.mem_cons.1 (hperm.symm.subset hen) with h | h
        · subst h
          exact fun hc => hit hc.symm
        · exact hino en (List.mem_append.2 (Or.inl h))
    · intro i hi hcond
      have hit : i ≠ ti := by
        rcases hcond with hcond | ⟨en, hen, hcond⟩
        · omega
        · rcases List.mem_append.1 hen with h | h
          · intro hiteq
            subst hiteq
            refine hti_not' ?_
            rw [← hcond]
            exact List.mem_map.2 ⟨en, h, rfl⟩
          · rw [List.mem_singleton] at h
            subst h
            rw [hpeq] at hcond
            simp at hcond
            omega
      rw [List.getElem?_set_ne (fun h => hit h.symm)]
      refine hnone i hi ?_
      rcases hcond with hcond | ⟨en, hen, hcond⟩
      · exact Or.inl (by omega)
      · rcases List.mem_append.1 hen with h | h
        · exact Or.inr ⟨en, hsub en h, hcond⟩
        · rw [List.mem_singleton] at h
          subst h
          rw [hpeq] at hcond
          simp at hcond
          exact Or.inl (by omega)
    · intro _
      simp

theorem mem_take_enum {γ : Type} (l : List γ) (wc : Nat) (e : Nat × γ)
    (he : e ∈ l.enum.take wc) : e.1 < wc ∧ l[e.1]? = some e.2 := by
  obtain ⟨j, hj, hje⟩ := List.getElem_of_mem he
  have hq : (l.enum.take wc)[j]? = some e := by
    rw [List.getElem?_eq_getElem hj, hje]
  by_cases hjwc : j < wc
  · rw [List.getElem?_take_of_lt hjwc] at hq
    have henum : (l.enum)[j]? = l[j]?.map (fun a => (0 + j, a)) :=
      List.getElem?_enumFrom 0 l j
    rw [henum] at hq
    cases hlj : l[j]? with
    | none => rw [hlj] at hq; cases hq
    | some tv =>
      rw [hlj] at hq
      simp only [Option.map_some', Option.some.injEq] at hq
      subst hq
      refine ⟨show 0 + j < wc by omega, ?_⟩
      show l[0 + j]? = some tv
      rw [Nat.zero_add]
      exact hlj
  · rw [List.getElem?_take_eq_none (by omega)] at hq
    cases hq

/-- All tasks resolving: the pool completes with all results aligned by the
task's original index. -/
theorem runWithConcurrency_all_ok {ε α : Type} (tasks : List (Except ε α))
    (concurrency : Nat) (oracle : Nat → Nat) (hc : 1 ≤ concurrency)
    (hok : ∀ tk ∈ tasks, tk.isOk = true) :
    runWithConcurrency tasks concurrency oracle = .ok (tasks.map Except.toOption) := by
  unfold runWithConcurrency
  have hwcN : poolWorkerCount concurrency tasks.length ≤ tasks.length :=
    Nat.min_le_right _ _
  apply poolGo_complete oracle tasks hok _ _ _ 0 (poolWorkerCount concurrency tasks.length)
  · exact List.length_replicate _ _
  · exact hwcN
  · rfl
  · intro en hen
    obtain ⟨e, he, rfl⟩ := List.mem_map.1 hen
    have := mem_take_enum tasks _ e he
    exact ⟨this.1, this.2⟩
  · have hrw : (((tasks.enum.take (poolWorkerCount concurrency tasks.length)).map
        (fun e => (e.1, e.1, e.2))).map (fun en => en.2.1)) =
        (tasks.enum.take (poolWorkerCount concurrency tasks.length)).map Prod.fst := by
      rw [List.map_map]
      rfl
    rw [hrw, List.map_take]
    refine (List.take_sublist _ _).nodup ?_
    have : tasks.enum.map Prod.fst = List.range' 0 tasks.length :=
      List.enumFrom_map_fst 0 tasks
    rw [this]
    exact List.nodup_range' 0 tasks.length
  · intro i hi hino
    exfalso
    have hiN : i < tasks.length := by omega
    have hq : (tasks.enum.take (poolWorkerCount concurrency tasks.length))[i]? =
        some (i, tasks[i]) := by
      rw [List.getElem?_take_of_lt hi]
      have henum : (tasks.enum)[i]? = tasks[i]?.map (fun a => (0 + i, a)) :=
        List.getElem?_enumFrom 0 tasks i
      rw [henum, List.getElem?_eq_getElem hiN]
      simp
    have hmem : ((i, tasks[i]) : Nat × Except ε α) ∈
        tasks.enum.take (poolWorkerCount concurrency tasks.length) :=
      List.getElem?_mem hq
    have hmem2 : ((i, i, tasks[i]) : Nat × Nat × Except ε α) ∈
        (tasks.enum.take (poolWorkerCount concurrency tasks.length)).map
          (fun e => (e.1, e.1, e.2)) :=
      List.mem_map.2 ⟨(i, tasks[i]), hmem, rfl⟩
    exact hino _ hmem2 rfl
  · intro i hi _
    exact List.getElem?_replicate_of_lt hi
  · intro hpne
    have hlt : poolWorkerCount concurrency tasks.length < tasks.length := by
      by_contra hge
      refine hpne (List.drop_eq_nil_of_le ?_)
      simp only [List.enum_length]
      omega
    have hwc1 : 1 ≤ poolWorkerCount concurrency tasks.length := by
      unfold poolWorkerCount at hlt ⊢
      omega
    intro hactnil
    have := congrArg List.length hactnil
    simp only [List.length_map, List.length_take, List.length_nil, List.enum_length] at this
    unfold poolWorkerCount at this hwc1 hlt
    omega

/-- Any error the pool run rejects with is the outcome of some in-flight or
pending task. -/
theorem poolGo_error_src {ε α : Type} (oracle : Nat → Nat) :
    ∀ (results : List (Option α)) (pending : List (Nat × Except ε α))
      (active : List (Nat × Nat × Except ε α)) (t : Nat) (e : ε),
      poolGo oracle results pending active t = .error e →
      (∃ en ∈ active, en.2.2 = .error e) ∨ (∃ p ∈ pending, p.2 = .error e) := by
  intro results pending active t
  induction results, pending, active, t using poolGo.induct oracle with
  | case1 results pending t =>
    intro e h
    rw [poolGo] at h
    cases h
  | case2 results pending a rest t hk w j e' hget =>
    intro e h
    rw [poolGo] at h
    simp only [hget] at h
    cases h
    refine Or.inl ⟨(w, j, Except.error e'), ?_, rfl⟩
    rw [← hget]
    exact List.get_mem _ _ _
  | case3 results a rest t hk wid ti v hget ih =>
    intro e h
    rw [poolGo] at h
    simp only [hget] at h
    rcases ih e h with ⟨en, hen, heq⟩ | ⟨p, hp, _⟩
    · have hperm := get_cons_eraseIdx_perm (a :: rest)
        (oracle t % (a :: rest).length) hk
      exact Or.inl ⟨en, (hget ▸ hperm).subset (List.mem_cons_of_mem _ hen), heq⟩
    · cases hp
  | case4 results a rest t hk wid ti v hget p ps ih =>
    intro e h
    rw [poolGo] at h
    simp only [hget] at h
    rcases ih e h with ⟨en, hen, heq⟩ | ⟨q, hq, heq⟩
    · rcases List.mem_append.1 hen with hen | hen
      · have hperm := get_cons_eraseIdx_perm (a :: rest)
          (oracle t % (a :: rest).length) hk
        exact Or.inl ⟨en, (hget ▸ hperm).subset (List.mem_cons_of_mem _ hen), heq⟩
      · rw [List.mem_singleton] at hen
        subst hen
        exact Or.inr ⟨p, List.mem_cons_self _ _, heq⟩
    · exact Or.inr ⟨q, List.mem_cons_of_mem _ hq, heq⟩

/-- C9: with every task resolving and a positive concurrency, the pool returns
an array of length `N` whose slot `i` holds the result of task `i`, for every
scheduling (completion) order; and the number of workers created is
`min(concurrency, N)`. -/
theorem runWithConcurrency_ordering {ε α : Type} (tasks : List (Except ε α))
    (concurrency : Nat) (oracle : Nat → Nat) (hc : 1 ≤ concurrency)
    (hok : ∀ tk ∈ tasks, tk.isOk = true) :
    runWithConcurrency tasks concurrency oracle = .ok (tasks.map Except.toOption) ∧
    (tasks.map Except.toOption).length = tasks.length ∧
    (∀ i, i < tasks.length →
      (tasks.map Except.toOption)[i]? = tasks[i]?.map Except.toOption) ∧
    poolWorkerCount concurrency tasks.length = min concurrency tasks.length := by
  refine ⟨runWithConcurrency_all_ok tasks concurrency oracle hc hok,
    List.length_map _ _, ?_, rfl⟩
  intro i _
  rw [List.getElem?_map]

/-- Witness for C9: three tasks, two workers, a nontrivial scheduling oracle —
results still land in input order. -/
theorem runWithConcurrency_ordering_witness :
    runWithConcurrency [(Except.ok 10 : Except String Nat), Except.ok 20, Except.ok 30] 2
      (fun t => t + 1) = .ok [some 10, some 20, some 30] :=
  (runWithConcurrency_ordering
    [(Except.ok 10 : Except String Nat), Except.ok 20, Except.ok 30] 2 (fun t => t + 1)
    (by decide) (by decide)).1

/-- C3 (amended): `runWithConcurrency` itself does not isolate task failures:
when a claimed task rejects, the pool run rejects with that task's own error
instead of completing the remaining tasks and capturing the failure in a
result slot. Failure isolation in the service holds because each task handed
to the pool catches its own errors (`productTask` always returns an outcome),
so with only resolving tasks the pool completes every task. -/
theorem runWithConcurrency_failure_propagation {ε α : Type}
    (tasks : List (Except ε α)) (concurrency : Nat) (oracle : Nat → Nat) :
    (∀ e, runWithConcurrency tasks concurrency oracle = .error e →
      Except.error e ∈ tasks) ∧
    ((∀ tk ∈ tasks, tk.isOk = true) → 1 ≤ concurrency →
      runWithConcurrency tasks concurrency oracle = .ok (tasks.map Except.toOption)) := by
  constructor
  · intro e h
    unfold runWithConcurrency at h
    rcases poolGo_error_src oracle _ _ _ _ e h with ⟨en, hen, heq⟩ | ⟨p, hp, heq⟩
    · obtain ⟨q, hq, rfl⟩ := List.mem_map.1 hen
      have hqt := mem_take_enum tasks _ q hq
      rw [← heq]
      exact List.getElem?_mem hqt.2
    · rw [← heq]
      exact List.snd_mem_of_mem_enumFrom (List.mem_of_mem_drop hp)
  · intro hok hc
    exact runWithConcurrency_all_ok tasks concurrency oracle hc hok

/-- C3 counterexample: a pool of one worker over a failing first task — the
failure is thrown out of the pool (the run rejects with it), and the second
task's result is never produced. -/
theorem runWithConcurrency_counterexample :
    runWithConcurrency [Except.error "boom", Except.ok (42 : Nat)] 1 (fun _ => 0) =
      .error "boom" := by
  show poolGo (fun _ => 0) [none, none] [(1, (Except.ok 42 : Except String Nat))]
      [(0, 0, (Except.error "boom" : Except String Nat))] 0 = .error "boom"
  rw [poolGo]
  rfl

/-- Witness for the amended C3: with tasks that never reject, the pool
completes all of them. -/
theorem runWithConcurrency_failure_propagation_witness :
    runWithConcurrency [(Except.ok 1 : Except String Nat), Except.ok 2] 1 (fun _ => 0) =
      .ok [some 1, some 2] :=
  (runWithConcurrency_failure_propagation
    [(Except.ok 1 : Except String Nat), Except.ok 2] 1 (fun _ => 0)).2 (by decide) (by decide)

/-! ## Mapper lemmas: per-field behaviour of the grouping fold -/

theorem updateProduct_Product (row : Row) (p : SFDoc) :
    (updateProduct row p).Product = p.Product := rfl

theorem fold_Product (grows : List Row) (p : SFDoc) :
    (grows.foldl (fun q row => updateProduct row q) p).Product = p.Product := by
  induction grows generalizing p with
  | nil => rfl
  | cons r rest ih => rw [List.foldl_cons, ih, updateProduct_Product]

theorem fold_ProductColors (grows : List Row) (p : SFDoc) :
    (grows.foldl (fun q row => updateProduct row q) p).ProductColors =
      grows.foldl (fun l r => pushColor r l) p.ProductColors := by
  induction grows generalizing p with
  | nil => rfl
  | cons r rest ih => rw [List.foldl_cons, ih]; rfl

theorem fold_ProductAttributes (grows : List Row) (p : SFDoc) :
    (grows.foldl (fun q row => updateProduct row q) p).ProductAttributes =
      grows.foldl (fun l r => pushAttr r l) p.ProductAttributes := by
  induction grows generalizing p with
  | nil => rfl
  | cons r rest ih => rw [List.foldl_cons, ih]; rfl

theorem fold_ProductTaxes (grows : List Row) (p : SFDoc) (ts : List TaxEntry)
    (hp : p.ProductTaxes = [ts]) :
    (grows.foldl (fun q row => updateProduct row q) p).ProductTaxes =
      [grows.foldl (fun l r => pushTaxes r l) ts] := by
  induction grows generalizing p ts with
  | nil => simpa using hp
  | cons r rest ih =>
    rw [List.foldl_cons, List.foldl_cons]
    refine ih (updateProduct r p) (pushTaxes r ts) ?_
    show [pushTaxes r (p.ProductTaxes.headD [])] = [pushTaxes r ts]
    rw [hp]
    rfl

theorem fold_ProductSubBrands (grows : List Row) (p : SFDoc) :
    (grows.foldl (fun q row => updateProduct row q) p).ProductSubBrands =
      grows.foldl (fun l r => pushSubBrand r l) p.ProductSubBrands := by
  induction grows generalizing p with
  | nil => rfl
  | cons r rest ih => rw [List.foldl_cons, ih]; rfl

theorem fold_ProductDefaults (grows : List Row) (p : SFDoc) :
    (grows.foldl (fun q row => updateProduct row q) p).ProductDefaults =
      grows.foldl (fun l r => pushDefaults r l) p.ProductDefaults := by
  induction grows generalizing p with
  | nil => rfl
  | cons r rest ih => rw [List.foldl_cons, ih]; rfl

theorem fold_PROD_PRODUCTGROUP (grows : List Row) (p : SFDoc) :
    (grows.foldl (fun q row => updateProduct row q) p).PROD_PRODUCTGROUP =
      grows.foldl (fun l r => pushGroup r l) p.PROD_PRODUCTGROUP := by
  induction grows generalizing p with
  | nil => rfl
  | cons r rest ih => rw [List.foldl_cons, ih]; rfl

theorem fold_ProductGroupGroupping (grows : List Row) (p : SFDoc) :
    (grows.foldl (fun q row => updateProduct row q) p).ProductGroupGroupping =
      grows.foldl (fun l r => pushGroupping r l) p.ProductGroupGroupping := by
  induction grows generalizing p with
  | nil => rfl
  | cons r rest ih => rw [List.foldl_cons, ih]; rfl

theorem safetyFix_spec (p : SFDoc) :
    (safetyFix p).Product = p.Product ∧
    (safetyFix p).ProductColors = p.ProductColors ∧
    (safetyFix p).ProductTaxes = p.ProductTaxes ∧
    (safetyFix p).ProductSubBrands = p.ProductSubBrands ∧
    (safetyFix p).ProductDefaults = p.ProductDefaults ∧
    (safetyFix p).PROD_PRODUCTGROUP = p.PROD_PRODUCTGROUP ∧
    (safetyFix p).ProductGroupGroupping = p.ProductGroupGroupping ∧
    (safetyFix p).ProductAttributes =
      (if p.ProductAttributes.isEmpty then
        [mandatoryAttribute p.Product.AttributeSetName]
       else p.ProductAttributes) := by
  unfold safetyFix
  by_cases h : p.ProductAttributes.isEmpty
  · rw [if_pos h, if_pos h]
    refine ⟨rfl, rfl, rfl, rfl, rfl, rfl, rfl, ?_⟩
    show p.ProductAttributes ++ [mandatoryAttribute p.Product.AttributeSetName] = _
    rw [List.isEmpty_iff.1 h, List.nil_append]
  · rw [if_neg h, if_neg h]
    exact ⟨rfl, rfl, rfl, rfl, rfl, rfl, rfl, rfl⟩

theorem foldl_assocUpd_forall {κ β ρ : Type} [DecidableEq κ] (P : κ → β → Prop)
    (key : ρ → κ) (init : ρ → β) (upd : ρ → β → β) (rows : List ρ)
    (m0 : List (κ × β)) (hm : ∀ e ∈ m0, P e.1 e.2)
    (hstep : ∀ r v, P (key r) v → P (key r) (upd r v))
    (hinit : ∀ r, P (key r) (upd r (init r))) :
    ∀ e ∈ rows.foldl (fun m row => assocUpd (key row) (init row) (upd row) m) m0,
      P e.1 e.2 := by
  induction rows generalizing m0 with
  | nil => exact hm
  | cons r rest ih =>
    rw [List.foldl_cons]
    exact ih _ (assocUpd_forall P _ _ _ _ hm (hinit r) (hstep r))

theorem mem_keys_assocUpd {κ β : Type} [DecidableEq κ] (k : κ) (init : β)
    (f : β → β) (m : List (κ × β)) (x : κ)
    (hx : x ∈ (assocUpd k init f m).map Prod.fst) :
    x ∈ m.map Prod.fst ∨ x = k := by
  induction m with
  | nil =>
    simp only [assocUpd, List.map_cons, List.map_nil, List.mem_singleton] at hx
    exact Or.inr hx
  | cons e rest ih =>
    obtain ⟨k', v⟩ := e
    by_cases hk : k' = k
    · rw [show assocUpd k init f ((k', v) :: rest) = (k', f v) :: rest by simp [assocUpd, hk]] at hx
      simp only [List.map_cons, List.mem_cons] at hx ⊢
      tauto
    · rw [show assocUpd k init f ((k', v) :: rest) = (k', v) :: assocUpd k init f rest by
        simp [assocUpd, hk]] at hx
      simp only [List.map_cons, List.mem_cons] at hx ⊢
      rcases hx with hx | hx
      · tauto
      · rcases ih hx with h | h
        · tauto
        · tauto

theorem assocUpd_nodup_keys {κ β : Type} [DecidableEq κ] (k : κ) (init : β)
    (f : β → β) (m : List (κ × β)) (h : (m.map Prod.fst).Nodup) :
    ((assocUpd k init f m).map Prod.fst).Nodup := by
  induction m with
  | nil => simp [assocUpd]
  | cons e rest ih =>
    obtain ⟨k', v⟩ := e
    rw [List.map_cons, List.nodup_cons] at h
    by_cases hk : k' = k
    · rw [show assocUpd k init f ((k', v) :: rest) = (k', f v) :: rest by simp [assocUpd, hk]]
      rw [List.map_cons, List.nodup_cons]
      exact h
    · rw [show assocUpd k init f ((k', v) :: rest) = (k', v) :: assocUpd k init f rest by
        simp [assocUpd, hk]]
      rw [List.map_cons, List.nodup_cons]
      refine ⟨?_, ih h.2⟩
      intro hmem
      rcases mem_keys_assocUpd k init f rest k' hmem with hc | hc
      · exact h.1 hc
      · exact hk hc

theorem assocFind_of_mem_nodup {κ β : Type} [DecidableEq κ] (m : List (κ × β))
    (e : κ × β) (he : e ∈ m) (hnd : (m.map Prod.fst).Nodup) :
    assocFind m e.1 = some e.2 := by
  induction m with
  | nil => cases he
  | cons x rest ih =>
    obtain ⟨k', v⟩ := x
    rw [List.map_cons, List.nodup_cons] at hnd
    rcases List.mem_cons.1 he with h | h
    · subst h
      show assocFind _ _ = _
      unfold assocFind
      rw [if_pos rfl]
    · have hne : k' ≠ e.1 := by
        intro hc
        exact hnd.1 (hc ▸ List.mem_map.2 ⟨e, h, rfl⟩)
      show assocFind _ _ = _
      unfold assocFind
      rw [if_neg hne]
      exact ih h hnd.2

theorem foldl_some_updateProduct (rest : List Row) (p : SFDoc) :
    rest.foldl (fun acc r => some (updateProduct r (acc.getD (initDoc r)))) (some p) =
      some (rest.foldl (fun q row => updateProduct row q) p) := by
  induction rest generalizing p with
  | nil => rfl
  | cons r rs ih => rw [List.foldl_cons, List.foldl_cons]; exact ih _

/-- The grouped document stored in the build map under code `c` is exactly
the fold of the rows whose `ProductCode` is `c`. -/
theorem buildMap_assocFind (rows : List Row) (c : String) :
    assocFind (buildMap rows) c =
      buildGroup (rows.filter (fun r => r.ProductCode = c)) := by
  unfold buildMap
  rw [assocFind_foldl (fun r => r.ProductCode) initDoc (fun row p => updateProduct row p)
    rows [] c]
  show (rows.filter (fun r => r.ProductCode = c)).foldl
      (fun acc r => some (updateProduct r (acc.getD (initDoc r)))) none = _
  cases hgr : rows.filter (fun r => r.ProductCode = c) with
  | nil => rfl
  | cons r0 rest =>
    rw [List.foldl_cons]
    exact foldl_some_updateProduct rest (updateProduct r0 (initDoc r0))

theorem buildMap_entry_code (rows : List Row) :
    ∀ e ∈ buildMap rows, (e.2).Product.ProductCode = e.1 := by
  unfold buildMap
  refine foldl_assocUpd_forall (fun (k : String) (d : SFDoc) => d.Product.ProductCode = k)
    (fun r => r.ProductCode) initDoc (fun row => updateProduct row) rows []
    (fun e he => absurd he (List.not_mem_nil e)) ?_ ?_
  · intro r v hv
    rw [updateProduct_Product]
    exact hv
  · intro r
    rw [updateProduct_Product]
    rfl

theorem buildMap_keys_nodup (rows : List Row) :
    ((buildMap rows).map Prod.fst).Nodup := by
  unfold buildMap
  generalize hm0 : ([] : List (String × SFDoc)) = m0
  have h0 : (m0.map Prod.fst).Nodup := by rw [← hm0]; exact List.nodup_nil
  clear hm0
  induction rows generalizing m0 with
  | nil => exact h0
  | cons r rest ih =>
    rw [List.foldl_cons]
    exact ih _ (assocUpd_nodup_keys _ _ _ _ h0)

/-- Every document in the payload is the safety-fixed fold of its own group's
rows (the rows sharing its product code), and that group is nonempty. -/
theorem mem_payload (rows : List Row) (d : SFDoc)
    (hd : d ∈ mapToSalesforcePayload rows) :
    ∃ r0 rest,
      rows.filter (fun r => r.ProductCode = d.Product.ProductCode) = r0 :: rest ∧
      d = safetyFix (rest.foldl (fun p row => updateProduct row p)
        (updateProduct r0 (initDoc r0))) := by
  unfold mapToSalesforcePayload at hd
  obtain ⟨e, he, rfl⟩ := List.mem_map.1 hd
  have hcode : e.2.Product.ProductCode = e.1 := buildMap_entry_code rows e he
  have hfind := assocFind_of_mem_nodup _ e he (buildMap_keys_nodup rows)
  rw [buildMap_assocFind] at hfind
  have hsfp : (safetyFix e.2).Product = e.2.Product := (safetyFix_spec e.2).1
  rw [hsfp, hcode]
  cases hgr : rows.filter (fun r => r.ProductCode = e.1) with
  | nil =>
    rw [hgr] at hfind
    cases hfind
  | cons r0 rest =>
    rw [hgr] at hfind
    unfold buildGroup at hfind
    rw [Option.some.injEq] at hfind
    exact ⟨r0, rest, rfl, by rw [hfind]⟩

/-! ## Placeholder invariant (C6) -/

/-- C6: every document built by `mapToSalesforcePayload` has a nonempty
`ProductAttributes` array; a group contributing zero real attribute entries
gets exactly one placeholder (attribute name `"General"`, the document's own
`AttributeSetName`) after grouping completes, and a group with at least one
real attribute keeps exactly its grouped entries, with no placeholder
appended. -/
theorem mapToSalesforcePayload_placeholder (rows : List Row) (d : SFDoc)
    (hd : d ∈ mapToSalesforcePayload rows) :
    d.ProductAttributes ≠ [] ∧
    (groupAttrs (rows.filter (fun r => r.ProductCode = d.Product.ProductCode)) = [] →
      d.ProductAttributes = [mandatoryAttribute d.Product.AttributeSetName]) ∧
    (groupAttrs (rows.filter (fun r => r.ProductCode = d.Product.ProductCode)) ≠ [] →
      d.ProductAttributes =
        groupAttrs (rows.filter (fun r => r.ProductCode = d.Product.ProductCode))) := by
  obtain ⟨r0, rest, hgr, hdef⟩ := mem_payload rows d hd
  set P := rest.foldl (fun p row => updateProduct row p)
    (updateProduct r0 (initDoc r0)) with hP
  have hattrs : P.ProductAttributes = groupAttrs (r0 :: rest) := by
    rw [hP, fold_ProductAttributes]
    unfold groupAttrs
    rw [List.foldl_cons]
    rfl
  have hdp : d.Product = P.Product := by
    rw [hdef]
    exact (safetyFix_spec P).1
  have hda : d.ProductAttributes =
      (if P.ProductAttributes.isEmpty then
        [mandatoryAttribute P.Product.AttributeSetName]
       else P.ProductAttributes) := by
    rw [hdef]
    exact (safetyFix_spec P).2.2.2.2.2.2.2
  rw [hgr]
  by_cases hA : groupAttrs (r0 :: rest) = []
  · have hPA : P.ProductAttributes = [] := by rw [hattrs, hA]
    have hres : d.ProductAttributes = [mandatoryAttribute P.Product.AttributeSetName] := by
      rw [hda, hPA]
      rfl
    refine ⟨by rw [hres]; simp, fun _ => by rw [hres, hdp], fun hc => absurd hA hc⟩
  · have hPA : ¬ P.ProductAttributes.isEmpty = true := by
      rw [hattrs]
      exact fun hc => hA (List.isEmpty_iff.1 hc)
    have hres : d.ProductAttributes = groupAttrs (r0 :: rest) := by
      rw [hda, if_neg hPA, hattrs]
    exact ⟨by rw [hres]; exact hA, fun hc => absurd hc hA, fun _ => hres⟩

/-- A flat row with the given product code and every nullable field null. -/
def mkRow (code : String) : Row :=
  { ProductCode := code, ProductName := none, ProductIsActive := none,
    ProductGroupCode := none, ShortDesc := none, DetailedDesc := none,
    CategoryName := none, StyleCode := none, SizeCode := none,
    DivisionCode := none, UOM := none, AttributeSetName := none,
    SizeGroup := none, HSNCode := none, Brand := none, SalPackUn := none,
    ColorCode := none, ColorName := none, Color := none, Shade := none,
    Min_Qty := none, Max_Qty := none, IsCoreColor := none, AttrVal := none,
    AttributeName := none, IsMainAttribute := none, IsFilterApplicable := none,
    AttributeValType := none, AttrSortingVal := none, TaxBelow2500 := none,
    TaxAbove2500 := none, SubBrandCode := none }

/-- Witness for C6 at a one-row group with no attribute fields: the document
gets exactly the placeholder. -/
theorem mapToSalesforcePayload_placeholder_witness :
    (safetyFix (updateProduct (mkRow "A") (initDoc (mkRow "A")))).ProductAttributes ≠ [] ∧
    (safetyFix (updateProduct (mkRow "A") (initDoc (mkRow "A")))).ProductAttributes =
      [mandatoryAttribute none] := by
  have hmem : safetyFix (updateProduct (mkRow "A") (initDoc (mkRow "A"))) ∈
      mapToSalesforcePayload [mkRow "A"] := List.mem_cons_self _ _
  have h := mapToSalesforcePayload_placeholder [mkRow "A"] _ hmem
  refine ⟨h.1, ?_⟩
  have h2 := h.2.1 (by rfl)
  rw [h2]
  rfl

/-! ## Singleton children filled from the earliest qualifying row (C10) -/

theorem foldl_stay {γ : Type} (push : Row → List γ → List γ)
    (hpush : ∀ r l, l ≠ [] → push r l = l) :
    ∀ (rest : List Row) (l : List γ), l ≠ [] →
      rest.foldl (fun acc r => push r acc) l = l := by
  intro rest
  induction rest with
  | nil => intro l _; rfl
  | cons r rs ih =>
    intro l hl
    rw [List.foldl_cons, hpush r l hl]
    exact ih l hl

theorem pushDefaults_stay (r : Row) (l : List DefaultsEntry) (hl : l ≠ []) :
    pushDefaults r l = l := by
  unfold pushDefaults
  rw [if_neg (fun hc => hl (List.isEmpty_iff.1 hc))]

theorem pushGroup_stay (r : Row) (l : List GroupEntry) (hl : l ≠ []) :
    pushGroup r l = l := by
  unfold pushGroup
  rw [if_neg (fun hc => hl (List.isEmpty_iff.1 hc))]

theorem pushGroupping_stay (r : Row) (l : List GrouppingEntry) (hl : l ≠ []) :
    pushGroupping r l = l := by
  unfold pushGroupping
  rw [if_neg (fun hc => hl (List.isEmpty_iff.1 hc))]

theorem pushSubBrand_stay (r : Row) (l : List SubBrandEntry) (hl : l ≠ []) :
    pushSubBrand r l = l := by
  unfold pushSubBrand
  cases hsb : r.SubBrandCode with
  | none => rfl
  | some sbc =>
    show (if sbc ≠ "" ∧ l.isEmpty = true then l ++ [subBrandEntry r sbc] else l) = l
    rw [if_neg (fun hc => hl (List.isEmpty_iff.1 hc.2))]

/-- From an empty sub-brand array, the fold keeps exactly the entry of the
first row with a truthy `SubBrandCode`, if any. -/
theorem sbFold_from_nil (grows : List Row) :
    grows.foldl (fun acc r => pushSubBrand r acc) [] =
      (match grows.find? (fun r => truthyStr r.SubBrandCode) with
       | some rq => [subBrandEntry rq (rq.SubBrandCode.getD "")]
       | none => []) := by
  induction grows with
  | nil => rfl
  | cons r rest ih =>
    rw [List.foldl_cons]
    by_cases hq : truthyStr r.SubBrandCode = true
    · have hfind : List.find? (fun r => truthyStr r.SubBrandCode) (r :: rest) = some r :=
        List.find?_cons_of_pos _ hq
      rw [hfind]
      have hpush : pushSubBrand r [] = [subBrandEntry r (r.SubBrandCode.getD "")] := by
        unfold pushSubBrand
        cases hsb : r.SubBrandCode with
        | none => rw [hsb] at hq; simp [truthyStr] at hq
        | some sbc =>
          rw [hsb] at hq
          have hne : sbc ≠ "" := by simpa [truthyStr] using hq
          show (if sbc ≠ "" ∧ ([] : List SubBrandEntry).isEmpty = true then
            [] ++ [subBrandEntry r sbc] else []) = _
          rw [if_pos ⟨hne, rfl⟩]
          rfl
      rw [hpush]
      exact foldl_stay _ pushSubBrand_stay rest _ (by simp)
    · have hfind : List.find? (fun r => truthyStr r.SubBrandCode) (r :: rest) =
          List.find? (fun r => truthyStr r.SubBrandCode) rest :=
        List.find?_cons_of_neg _ (by simpa using hq)
      rw [hfind]
      have hpush : pushSubBrand r [] = [] := by
        unfold pushSubBrand
        cases hsb : r.SubBrandCode with
        | none => rfl
        | some sbc =>
          rw [hsb] at hq
          have heq : sbc = "" := by simpa [truthyStr] using hq
          show (if sbc ≠ "" ∧ ([] : List SubBrandEntry).isEmpty = true then
            [] ++ [subBrandEntry r sbc] else []) = _
          rw [if_neg (fun hc => hc.1 heq)]
      rw [hpush, ih]

/-- C10: every document's `ProductDefaults`, `PROD_PRODUCTGROUP` and
`ProductGroupGroupping` hold exactly one entry each, built from the group's
first row; `ProductSubBrands` holds at most one entry, present exactly when
some row of the group has a truthy `SubBrandCode` and built from the earliest
such row; and the defaults entry's `ColorCode` is the first row's `ColorCode`
(possibly null even when later rows carry colors). -/
theorem mapToSalesforcePayload_singletons (rows : List Row) (d : SFDoc)
    (hd : d ∈ mapToSalesforcePayload rows) :
    ∃ r0 rest,
      rows.filter (fun r => r.ProductCode = d.Product.ProductCode) = r0 :: rest ∧
      d.ProductDefaults = [defaultsEntry r0] ∧
      d.PROD_PRODUCTGROUP = [groupEntry r0] ∧
      d.ProductGroupGroupping = [grouppingEntry r0] ∧
      d.ProductSubBrands =
        (match (r0 :: rest).find? (fun r => truthyStr r.SubBrandCode) with
         | some rq => [subBrandEntry rq (rq.SubBrandCode.getD "")]
         | none => []) ∧
      (defaultsEntry r0).ColorCode = r0.ColorCode := by
  obtain ⟨r0, rest, hgr, hdef⟩ := mem_payload rows d hd
  refine ⟨r0, rest, hgr, ?_, ?_, ?_, ?_, rfl⟩
  · rw [hdef, (safetyFix_spec _).2.2.2.2.1, fold_ProductDefaults]
    show rest.foldl (fun acc r => pushDefaults r acc) (pushDefaults r0 []) = _
    rw [show pushDefaults r0 ([] : List DefaultsEntry) = [defaultsEntry r0] from rfl]
    exact foldl_stay _ pushDefaults_stay rest _ (by simp)
  · rw [hdef, (safetyFix_spec _).2.2.2.2.2.1, fold_PROD_PRODUCTGROUP]
    show rest.foldl (fun acc r => pushGroup r acc) (pushGroup r0 []) = _
    rw [show pushGroup r0 ([] : List GroupEntry) = [groupEntry r0] from rfl]
    exact foldl_stay _ pushGroup_stay rest _ (by simp)
  · rw [hdef, (safetyFix_spec _).2.2.2.2.2.2.1, fold_ProductGroupGroupping]
    show rest.foldl (fun acc r => pushGroupping r acc) (pushGroupping r0 []) = _
    rw [show pushGroupping r0 ([] : List GrouppingEntry) = [grouppingEntry r0] from rfl]
    exact foldl_stay _ pushGroupping_stay rest _ (by simp)
  · rw [hdef, (safetyFix_spec _).2.2.2.1, fold_ProductSubBrands]
    show rest.foldl (fun acc r => pushSubBrand r acc) (pushSubBrand r0 []) = _
    have h := sbFold_from_nil (r0 :: rest)
    rw [List.foldl_cons] at h
    exact h

/-- Witness for C10: a two-row group whose first row has no `ColorCode` and
whose second row has one — the defaults entry still carries the first row's
null `ColorCode`, and the sub-brand comes from the second row, the earliest
with a truthy code. -/
theorem mapToSalesforcePayload_singletons_witness :
    ∃ r0 rest,
      ([mkRow "A", { mkRow "A" with ColorCode := some "RED", SubBrandCode := some "SB" }].filter
        (fun r => r.ProductCode =
          (safetyFix ((([{ mkRow "A" with ColorCode := some "RED", SubBrandCode := some "SB" }]).foldl
            (fun p row => updateProduct row p)
            (updateProduct (mkRow "A") (initDoc (mkRow "A"))))) ).Product.ProductCode)) = r0 :: rest ∧
      (safetyFix ((([{ mkRow "A" with ColorCode := some "RED", SubBrandCode := some "SB" }]).foldl
        (fun p row => updateProduct row p)
        (updateProduct (mkRow "A") (initDoc (mkRow "A"))))) ).ProductDefaults = [defaultsEntry r0] ∧
      (defaultsEntry r0).ColorCode = none := by
  have hmem : safetyFix ((([{ mkRow "A" with ColorCode := some "RED", SubBrandCode := some "SB" }]).foldl
      (fun p row => updateProduct row p)
      (updateProduct (mkRow "A") (initDoc (mkRow "A"))))) ∈
      mapToSalesforcePayload
        [mkRow "A", { mkRow "A" with ColorCode := some "RED", SubBrandCode := some "SB" }] :=
    List.mem_cons_self _ _
  obtain ⟨r0, rest, hgr, hdefs, _, _, _, hcc⟩ :=
    mapToSalesforcePayload_singletons _ _ hmem
  refine ⟨r0, rest, hgr, hdefs, ?_⟩
  have hcons : (mkRow "A") ::
      [{ mkRow "A" with ColorCode := some "RED", SubBrandCode := some "SB" }] = r0 :: rest := by
    rw [← hgr]
    rfl
  injection hcons with h1 _
  rw [hcc, ← h1]
  rfl

/-! ## Deduplication invariant (C8) -/

theorem pairwise_key_append {γ κT : Type} (keyf : γ → κT) (l : List γ) (x : γ)
    (h : l.Pairwise (fun a b => keyf a ≠ keyf b))
    (hx : ∀ a ∈ l, keyf a ≠ keyf x) :
    (l ++ [x]).Pairwise (fun a b => keyf a ≠ keyf b) := by
  rw [List.pairwise_append]
  refine ⟨h, List.pairwise_singleton _ _, ?_⟩
  intro a ha b hb
  rw [List.mem_singleton] at hb
  subst hb
  exact hx a ha

theorem pushColor_pairwise (row : Row) (colors : List ColorEntry)
    (h : colors.Pairwise (fun a b => a.ColorCode ≠ b.ColorCode)) :
    (pushColor row colors).Pairwise (fun a b => a.ColorCode ≠ b.ColorCode) := by
  unfold pushColor
  cases hcc : row.ColorCode with
  | none => exact h
  | some cc =>
    show (if cc ≠ "" ∧ ¬ colors.any (fun c => c.ColorCode = cc) = true then
      colors ++ [colorEntry row cc] else colors).Pairwise _
    by_cases hcond : cc ≠ "" ∧ ¬ colors.any (fun c => c.ColorCode = cc) = true
    · rw [if_pos hcond]
      refine pairwise_key_append (fun (c : ColorEntry) => c.ColorCode) _ _ h ?_
      intro a ha hc
      exact hcond.2 (List.any_eq_true.2 ⟨a, ha, decide_eq_true hc⟩)
    · rw [if_neg hcond]
      exact h

theorem pushAttr_pairwise (row : Row) (attrs : List AttributeEntry)
    (h : attrs.Pairwise (fun a b => attrKey a ≠ attrKey b)) :
    (pushAttr row attrs).Pairwise (fun a b => attrKey a ≠ attrKey b) := by
  unfold pushAttr
  cases hav : row.AttrVal with
  | none => exact h
  | some val =>
    cases han : row.AttributeName with
    | none => exact h
    | some name =>
      show (if val ≠ "" ∧ name ≠ "" ∧
          ¬ attrs.any (fun a => attrKey a = name ++ "_" ++ val) = true then
        attrs ++ [attributeEntry row name val] else attrs).Pairwise _
      by_cases hcond : val ≠ "" ∧ name ≠ "" ∧
          ¬ attrs.any (fun a => attrKey a = name ++ "_" ++ val) = true
      · rw [if_pos hcond]
        refine pairwise_key_append attrKey _ _ h ?_
        intro a ha hc
        exact hcond.2.2 (List.any_eq_true.2 ⟨a, ha, decide_eq_true hc⟩)
      · rw [if_neg hcond]
        exact h

theorem pushTaxEntry_pairwise (ts : List TaxEntry) (tp : Option String) (lbl : String)
    (hts : ts.Pairwise (fun a b => a.EvalExpression ≠ b.EvalExpression))
    (hany : ¬ ts.any (fun t => t.EvalExpression = lbl) = true) :
    (ts ++ [(⟨tp, lbl⟩ : TaxEntry)]).Pairwise
      (fun a b => a.EvalExpression ≠ b.EvalExpression) := by
  refine pairwise_key_append (fun (t : TaxEntry) => t.EvalExpression) _ _ hts ?_
  intro a ha hc
  exact hany (List.any_eq_true.2 ⟨a, ha, decide_eq_true hc⟩)

theorem pushTaxBelow_pairwise (row : Row) (taxes : List TaxEntry)
    (h : taxes.Pairwise (fun a b => a.EvalExpression ≠ b.EvalExpression)) :
    (pushTaxBelow row taxes).Pairwise (fun a b => a.EvalExpression ≠ b.EvalExpression) := by
  unfold pushTaxBelow
  by_cases h1 : row.TaxBelow2500.isSome = true ∧
      ¬ taxes.any (fun t => t.EvalExpression = "Price < 2500") = true
  · rw [if_pos h1]
    exact pushTaxEntry_pairwise taxes _ _ h h1.2
  · rw [if_neg h1]
    exact h

theorem pushTaxAbove_pairwise (row : Row) (taxes : List TaxEntry)
    (h : taxes.Pairwise (fun a b => a.EvalExpression ≠ b.EvalExpression)) :
    (pushTaxAbove row taxes).Pairwise (fun a b => a.EvalExpression ≠ b.EvalExpression) := by
  unfold pushTaxAbove
  by_cases h1 : row.TaxAbove2500.isSome = true ∧
      ¬ taxes.any (fun t => t.EvalExpression = "Price >= 2500") = true
  · rw [if_pos h1]
    exact pushTaxEntry_pairwise taxes _ _ h h1.2
  · rw [if_neg h1]
    exact h

theorem pushTaxes_pairwise (row : Row) (taxes : List TaxEntry)
    (h : taxes.Pairwise (fun a b => a.EvalExpression ≠ b.EvalExpression)) :
    (pushTaxes row taxes).Pairwise (fun a b => a.EvalExpression ≠ b.EvalExpression) :=
  pushTaxAbove_pairwise row _ (pushTaxBelow_pairwise row taxes h)

theorem pushPrice_pairwise (row : PriceRow) (e : PriceListEntry)
    (h : e.Prices.Pairwise (fun a b => a.BPCategory ≠ b.BPCategory)) :
    (pushPrice row e).Prices.Pairwise (fun a b => a.BPCategory ≠ b.BPCategory) := by
  unfold pushPrice
  by_cases hcond : e.Prices.any (fun p => p.BPCategory = row.BPCategory) = true
  · rw [if_pos hcond]
    exact h
  · rw [if_neg hcond]
    show (e.Prices ++ [priceEntry row]).Pairwise _
    refine pairwise_key_append (fun (p : PriceEntry) => p.BPCategory) _ _ h ?_
    intro a ha hc
    exact hcond (List.any_eq_true.2 ⟨a, ha, decide_eq_true hc⟩)

/-- The dedup property of one grouped document: colors keyed by `ColorCode`,
attributes by the composite attribute key, tax tiers by their label. -/
def docDedup (p : SFDoc) : Prop :=
  p.ProductColors.Pairwise (fun a b => a.ColorCode ≠ b.ColorCode) ∧
  p.ProductAttributes.Pairwise (fun a b => attrKey a ≠ attrKey b) ∧
  ∀ ts ∈ p.ProductTaxes, ts.Pairwise (fun a b => a.EvalExpression ≠ b.EvalExpression)

theorem initDoc_dedup (row : Row) : docDedup (initDoc row) := by
  refine ⟨List.Pairwise.nil, List.Pairwise.nil, ?_⟩
  intro ts hts
  rcases List.mem_singleton.1 hts with rfl
  exact List.Pairwise.nil

theorem updateProduct_dedup (row : Row) (p : SFDoc) (h : docDedup p) :
    docDedup (updateProduct row p) := by
  refine ⟨pushColor_pairwise row _ h.1, pushAttr_pairwise row _ h.2.1, ?_⟩
  intro ts hts
  rcases List.mem_singleton.1 hts with rfl
  refine pushTaxes_pairwise row _ ?_
  cases hpt : p.ProductTaxes with
  | nil => exact List.Pairwise.nil
  | cons t rest =>
    have := h.2.2 t (by rw [hpt]; exact List.mem_cons_self _ _)
    simpa [hpt] using this

theorem fold_dedup (grows : List Row) (p : SFDoc) (h : docDedup p) :
    docDedup (grows.foldl (fun q row => updateProduct row q) p) := by
  induction grows generalizing p with
  | nil => exact h
  | cons r rest ih =>
    rw [List.foldl_cons]
    exact ih _ (updateProduct_dedup r p h)

/-- C8: in every grouped record, no two child entries of the same kind share
a dedup key — colors by `ColorCode`, attributes by the
`(AttributeName, AttrVal)` composite, tax tiers by their `EvalExpression`
label, and price entries within one price-list entry by `BPCategory` — for
arbitrary input row sequences. -/
theorem dedup_invariant (rows : List Row) (prows : List PriceRow) :
    (∀ d ∈ mapToSalesforcePayload rows,
      d.ProductColors.Pairwise (fun a b => a.ColorCode ≠ b.ColorCode) ∧
      d.ProductAttributes.Pairwise (fun a b =>
        (a.Attribute.AttributeName, a.AttrVal) ≠ (b.Attribute.AttributeName, b.AttrVal)) ∧
      (∀ ts ∈ d.ProductTaxes,
        ts.Pairwise (fun a b => a.EvalExpression ≠ b.EvalExpression))) ∧
    (∀ rec ∈ mapToPriceListPayload prows, ∀ pl ∈ rec.PriceList,
      pl.Prices.Pairwise (fun a b => a.BPCategory ≠ b.BPCategory)) := by
  constructor
  · intro d hd
    obtain ⟨r0, rest, hgr, hdef⟩ := mem_payload rows d hd
    set P := rest.foldl (fun p row => updateProduct row p)
      (updateProduct r0 (initDoc r0)) with hP
    have hdd : docDedup P :=
      fold_dedup rest _ (updateProduct_dedup r0 _ (initDoc_dedup r0))
    have hcolors : d.ProductColors = P.ProductColors := by
      rw [hdef]; exact (safetyFix_spec P).2.1
    have htaxes : d.ProductTaxes = P.ProductTaxes := by
      rw [hdef]; exact (safetyFix_spec P).2.2.1
    have hattrs : d.ProductAttributes =
        (if P.ProductAttributes.isEmpty then
          [mandatoryAttribute P.Product.AttributeSetName]
         else P.ProductAttributes) := by
      rw [hdef]; exact (safetyFix_spec P).2.2.2.2.2.2.2
    refine ⟨by rw [hcolors]; exact hdd.1, ?_, by rw [htaxes]; exact hdd.2.2⟩
    have hkey : d.ProductAttributes.Pairwise (fun a b => attrKey a ≠ attrKey b) := by
      rw [hattrs]
      by_cases hemp : P.ProductAttributes.isEmpty
      · rw [if_pos hemp]
        exact List.pairwise_singleton _ _
      · rw [if_neg hemp]
        exact hdd.2.1
    refine List.Pairwise.imp ?_ hkey
    intro a b hab hc
    apply hab
    have h1 : a.Attribute.AttributeName = b.Attribute.AttributeName :=
      congrArg Prod.fst hc
    have h2 : a.AttrVal = b.AttrVal := congrArg Prod.snd hc
    unfold attrKey
    rw [h1, h2]
  · intro rec hrec pl hpl
    unfold mapToPriceListPayload at hrec
    obtain ⟨e, he, rfl⟩ := List.mem_map.1 hrec
    have hinv : ∀ x ∈ e.2, (x.2 : PriceListEntry).Prices.Pairwise
        (fun a b => a.BPCategory ≠ b.BPCategory) := by
      have := foldl_assocUpd_forall
        (fun (_ : String) (plmap : List (Option Int × PriceListEntry)) =>
          ∀ x ∈ plmap, x.2.Prices.Pairwise (fun a b => a.BPCategory ≠ b.BPCategory))
        (fun r => r.ProductCode) (fun _ => [])
        (fun row plmap =>
          assocUpd row.PriceListID (initPriceListEntry row) (pushPrice row) plmap)
        prows [] (fun x hx => absurd hx (List.not_mem_nil x)) ?_ ?_ e he
      · exact this
      · intro r v hv
        refine assocUpd_forall (fun (_ : Option Int) (en : PriceListEntry) =>
          en.Prices.Pairwise (fun a b => a.BPCategory ≠ b.BPCategory)) _ _ _ _ hv ?_ ?_
        · exact pushPrice_pairwise r _ (by exact List.Pairwise.nil)
        · exact fun w hw => pushPrice_pairwise r w hw
      · intro r
        refine assocUpd_forall (fun (_ : Option Int) (en : PriceListEntry) =>
          en.Prices.Pairwise (fun a b => a.BPCategory ≠ b.BPCategory)) _ _ _ _
          (fun x hx => absurd hx (List.not_mem_nil x)) ?_ ?_
        · exact pushPrice_pairwise r _ (by exact List.Pairwise.nil)
        · exact fun w hw => pushPrice_pairwise r w hw
    obtain ⟨x, hx, rfl⟩ := List.mem_map.1 hpl
    exact hinv x hx

/-- Witness for C8: two rows of one group repeating the same `ColorCode` with
a differing unrelated field still yield pairwise-distinct color entries. -/
theorem dedup_invariant_witness :
    ((safetyFix (updateProduct { mkRow "A" with ColorCode := some "RED", ShortDesc := some "y" }
      (updateProduct { mkRow "A" with ColorCode := some "RED", ShortDesc := some "x" }
        (initDoc { mkRow "A" with ColorCode := some "RED", ShortDesc := some "x" })))).ProductColors).Pairwise
      (fun a b => a.ColorCode ≠ b.ColorCode) := by
  have hmem : safetyFix (updateProduct { mkRow "A" with ColorCode := some "RED", ShortDesc := some "y" }
      (updateProduct { mkRow "A" with ColorCode := some "RED", ShortDesc := some "x" }
        (initDoc { mkRow "A" with ColorCode := some "RED", ShortDesc := some "x" }))) ∈
      mapToSalesforcePayload
        [{ mkRow "A" with ColorCode := some "RED", ShortDesc := some "x" },
         { mkRow "A" with ColorCode := some "RED", ShortDesc := some "y" }] :=
    List.mem_cons_self _ _
  exact ((dedup_invariant _ []).1 _ hmem).1

/-! ## Watermark semantics of the product sync run (C2) -/

theorem upsertProducts_ok_of_first (codes : List String)
    (att : Nat → Nat → AttemptOutcome) (maxRetries : Nat)
    (h : ∀ code, (productTask code (att 0) maxRetries).isSuccess = true) :
    ∃ r, upsertProducts codes att maxRetries = .ok r := by
  cases codes with
  | nil =>
    exact ⟨⟨[], []⟩, by unfold upsertProducts unitOutcomes; rfl⟩
  | cons c0 rest =>
    have hhead : productTask c0 (att 0) maxRetries ∈
        (unitOutcomes (c0 :: rest) att maxRetries).filter (fun o => o.isSuccess) := by
      refine List.mem_filter.2 ⟨?_, by rw [h c0]⟩
      exact List.mem_cons_self _ _
    have hlen : ((unitOutcomes (c0 :: rest) att maxRetries).filter
        (fun o => o.isSuccess)).length ≠ 0 := by
      intro hc
      rw [List.length_eq_zero] at hc
      simp [hc] at hhead
    refine ⟨⟨(unitOutcomes (c0 :: rest) att maxRetries).filter (fun o => o.isSuccess),
      (unitOutcomes (c0 :: rest) att maxRetries).filter (fun o => !o.isSuccess)⟩, ?_⟩
    unfold upsertProducts
    rw [if_neg (fun hc => hlen hc.1)]

theorem syncGo_unfold (pageSize maxRetries : Nat) (fetchFault : Nat → Option String)
    (attempts : Nat → Nat → Nat → AttemptOutcome) (remaining : List Row)
    (pg : Nat) (acc : RunSummary) (hf : fetchFault pg = none) :
    syncGo pageSize maxRetries fetchFault attempts remaining pg acc =
      (if (remaining.take pageSize).isEmpty then Except.ok { acc with pages := pg }
       else
        match pageStep pageSize maxRetries attempts pg remaining acc with
        | .error e => .error e
        | .ok acc' =>
          if (remaining.take pageSize).length < pageSize then .ok acc'
          else syncGo pageSize maxRetries fetchFault attempts
            (remaining.drop pageSize) (pg + 1) acc') := by
  rw [syncGo, hf]
  rfl

theorem syncGo_fault (pageSize maxRetries : Nat) (fetchFault : Nat → Option String)
    (attempts : Nat → Nat → Nat → AttemptOutcome) (remaining : List Row)
    (pg : Nat) (acc : RunSummary) (e : String) (hf : fetchFault pg = some e) :
    syncGo pageSize maxRetries fetchFault attempts remaining pg acc = .error e := by
  rw [syncGo, hf]

theorem syncGo_ok (pageSize maxRetries : Nat) (fetchFault : Nat → Option String)
    (attempts : Nat → Nat → Nat → AttemptOutcome)
    (hf : ∀ pg, fetchFault pg = none)
    (hu : ∀ pg code, (productTask code (attempts pg 0) maxRetries).isSuccess = true) :
    ∀ (n : Nat) (remaining : List Row) (pg : Nat) (acc : RunSummary),
      remaining.length ≤ n →
      ∃ s, syncGo pageSize maxRetries fetchFault attempts remaining pg acc = .ok s := by
  intro n
  induction n with
  | zero =>
    intro remaining pg acc hlen
    have hrem : remaining = [] := List.length_eq_zero.1 (by omega)
    subst hrem
    refine ⟨{ acc with pages := pg }, ?_⟩
    rw [syncGo_unfold _ _ _ _ _ _ _ (hf pg), if_pos (by rw [List.take_nil]; rfl)]
  | succ n ih =>
    intro remaining pg acc hlen
    rw [syncGo_unfold _ _ _ _ _ _ _ (hf pg)]
    by_cases hempty : (remaining.take pageSize).isEmpty = true
    · exact ⟨_, by rw [if_pos hempty]⟩
    · rw [if_neg hempty]
      have hstep : ∃ acc', pageStep pageSize maxRetries attempts pg remaining acc = .ok acc' := by
        unfold pageStep
        by_cases hp : (mapToSalesforcePayload (remaining.take pageSize)).length > 0
        · obtain ⟨r, hr⟩ := upsertProducts_ok_of_first
            ((mapToSalesforcePayload (remaining.take pageSize)).map
              (fun d => d.Product.ProductCode)) (attempts pg) maxRetries (hu pg)
          rw [if_pos hp, hr]
          exact ⟨_, rfl⟩
        · rw [if_neg hp]
          exact ⟨_, rfl⟩
      obtain ⟨acc', hacc'⟩ := hstep
      rw [hacc']
      show ∃ s, (if (remaining.take pageSize).length < pageSize then Except.ok acc'
        else syncGo pageSize maxRetries fetchFault attempts
          (remaining.drop pageSize) (pg + 1) acc') = Except.ok s
      by_cases hlast : (remaining.take pageSize).length < pageSize
      · exact ⟨acc', by rw [if_pos hlast]⟩
      · rw [if_neg hlast]
        refine ih (remaining.drop pageSize) (pg + 1) acc' ?_
        have hps : 0 < pageSize := by
          rcases Nat.eq_zero_or_pos pageSize with h0 | h0
          · exact absurd (by rw [h0]; rfl) hempty
          · exact h0
        have hrem : remaining ≠ [] := by
          intro hc
          exact hempty (by rw [hc, List.take_nil]; rfl)
        have : 0 < remaining.length := List.length_pos.2 hrem
        simp only [List.length_drop]
        omega

/-- Attempt oracle for the C2 counterexample: on every page, unit 0's first
HTTP attempt returns 200 with an empty JSON object body, while every other
unit's attempts fail at the network level. -/
def cexSyncAttempts : Nat → Nat → Nat → AttemptOutcome :=
  fun _ unit _ =>
    if unit = 0 then .response ⟨200, Json.obj []⟩
    else .netError "socket hang up"

/-- C2 counterexample: a two-product run in which product B's delivery fails
on every attempt still completes with HTTP 200 (`.ok`) and a summary showing
`totalFailed = 1`, and the watermark is advanced from `wm = 0` to `now = 1`.
The spec's claim that any failure anywhere in the run leaves the watermark
unchanged is therefore false: only a thrown error (fetch failure, or a page
on which every unit failed) blocks the watermark. -/
theorem syncProducts_counterexample :
    syncProducts [mkRow "A", mkRow "B"] 500 1 (fun _ => none) cexSyncAttempts 0 1 =
      (1, .ok ⟨2, 2, 1, 1, ["B"], 1⟩) := by
  unfold syncProducts
  rw [syncGo]
  rfl

/-- C2 (amended): the watermark is governed by whether the run throws, not by
whether every unit succeeded. If the pagination loop returns a summary
(`.ok`), the watermark is reassigned to `now` even when the summary records
per-unit delivery failures; only a thrown error (`.error`) leaves the
watermark at `wm`. Moreover, whenever no fetch faults occur and on every page
every unit's first attempt verifies, the run does return a summary and the
watermark advances. -/
theorem syncProducts_watermark (allRows : List Row) (pageSize maxRetries : Nat)
    (fetchFault : Nat → Option String) (attempts : Nat → Nat → Nat → AttemptOutcome)
    (wm now : Nat) :
    (∀ s, syncGo pageSize maxRetries fetchFault attempts allRows 1 initialSummary = .ok s →
      syncProducts allRows pageSize maxRetries fetchFault attempts wm now = (now, .ok s)) ∧
    (∀ e, syncGo pageSize maxRetries fetchFault attempts allRows 1 initialSummary = .error e →
      syncProducts allRows pageSize maxRetries fetchFault attempts wm now = (wm, .error e)) ∧
    ((∀ pg, fetchFault pg = none) →
      (∀ pg code, (productTask code (attempts pg 0) maxRetries).isSuccess = true) →
      ∃ s, syncProducts allRows pageSize maxRetries fetchFault attempts wm now = (now, .ok s)) := by
  refine ⟨?_, ?_, ?_⟩
  · intro s hs
    unfold syncProducts
    rw [hs]
  · intro e he
    unfold syncProducts
    rw [he]
  · intro hfN huN
    obtain ⟨s, hs⟩ := syncGo_ok pageSize maxRetries fetchFault attempts hfN huN
      allRows.length allRows 1 initialSummary (Nat.le_refl _)
    exact ⟨s, by unfold syncProducts; rw [hs]⟩

theorem syncProducts_watermark_witness :
    ∃ s, syncProducts [mkRow "A"] 500 1 (fun _ => none)
        (fun _ _ _ => AttemptOutcome.response ⟨200, Json.obj []⟩) 0 1 = (1, .ok s) :=
  (syncProducts_watermark [mkRow "A"] 500 1 (fun _ => none)
      (fun _ _ _ => AttemptOutcome.response ⟨200, Json.obj []⟩) 0 1).2.2
    (fun _ => rfl) (fun _ _ => rfl)
